import Mathlib

/-!
Verification development for the Link.io short-code registry.

The repository implements the same registry twice: once as a Solidity
contract (`LinkIO.sol`, functions `_generateShortCode`, `createShortLink`,
`uploadMedia`, `getLink`, `getMedia`, `getLinkData`, `getMediaData`,
`getUserLinks`, `getUserMedia`, `getTotalLinks`, `getTotalMedia`) and once
as an Express/SQLite service (`generateShortCode` and the `/api/...`
routes).  Both are embedded below: the service database as lists of rows
in rowid (insertion) order, the contract storage as functions from short
code to optional record.  Randomness (the bytes of `crypto.randomBytes`,
the value of `keccak256`) is passed in as explicit parameters, and the
unbounded collision-retry loops take the list of successive generator
draws, returning `none` when it is exhausted.
-/

namespace Linkio

/-- The 62-character alphabet shared by both generator variants:
`"abcdefghijklmnopqrstuvwxyzABCDEFGHIJKLMNOPQRSTUVWXYZ0123456789"`. -/
def alphabet : List Char :=
  "abcdefghijklmnopqrstuvwxyzABCDEFGHIJKLMNOPQRSTUVWXYZ0123456789".toList

/-- One character of the service generator: `chars[b % chars.length]`
applied to one random byte `b` (from `crypto.randomBytes`). -/
def byteChar (b : Nat) : Char :=
  alphabet.getD (b % alphabet.length) 'a'

/-- Service `generateShortCode` (server, `function generateShortCode(length = 6)`):
builds a 6-character string whose i-th character is
`chars[bytes[i] % chars.length]`, where `bytes` are the random bytes drawn
for this call. -/
def generateShortCode (bytes : Nat → Nat) : String :=
  String.mk ((List.range 6).map fun i => byteChar (bytes i))

/-- Number of byte values in 0..255 that the service generator maps to the
character `c`; under a uniform random byte, the probability of producing
`c` at a given position is `charWeight c / 256`. -/
def charWeight (c : Char) : Nat :=
  ((List.range 256).filter (fun b => byteChar b = c)).length

/-! ## Service (Express + SQLite) data model -/

/-- One row of the `links` table (columns `short_code, original_url,
creator, created_at, clicks`; the AUTOINCREMENT id is the list position). -/
structure LinkRow where
  short_code : String
  original_url : String
  creator : String
  created_at : Nat
  clicks : Nat
deriving DecidableEq

/-- One row of the `media` table. -/
structure MediaRow where
  short_code : String
  ipfs_hash : String
  file_name : String
  file_type : String
  file_size : Nat
  creator : String
  created_at : Nat
  views : Nat
deriving DecidableEq

/-- The SQLite database: both tables, rows in rowid (insertion) order. -/
structure Db where
  links : List LinkRow
  media : List MediaRow
deriving DecidableEq

/-- Empty database, as created by the `CREATE TABLE` statements. -/
def emptyDb : Db := ⟨[], []⟩

/-- Outcome of a route handler: HTTP 200 with a payload, HTTP 400
(validation failure), or HTTP 404 (unknown short code). -/
inductive ApiResult (α : Type) where
  | ok : α → ApiResult α
  | badRequest : String → ApiResult α
  | notFound : String → ApiResult α
deriving DecidableEq

/-- Boolean test: is this result an HTTP 400 validation failure. -/
def ApiResult.isBad {α : Type} : ApiResult α → Bool
  | .badRequest _ => true
  | _ => false

/-- Boolean test: is this result an HTTP 200 success. -/
def ApiResult.isOk {α : Type} : ApiResult α → Bool
  | .ok _ => true
  | _ => false

/-- The collision-retry loop of both creation routes
(`while (checkStmt.get(shortCode)) shortCode = generateShortCode()`):
runs the generator on successive random draws until the produced code is
not `isUsed`; `none` if the given draws are exhausted (the real loop would
keep drawing). -/
def pickFresh (isUsed : String → Bool) : List (Nat → Nat) → Option String
  | [] => none
  | d :: ds =>
    let c := generateShortCode d
    if isUsed c then pickFresh isUsed ds else some c

/-- Whether the `links` table has a row with this short code
(`SELECT 1 FROM links WHERE short_code = ?`). -/
def linkCodeUsed (db : Db) (c : String) : Bool :=
  db.links.any (fun r => r.short_code = c)

/-- Whether the `media` table has a row with this short code. -/
def mediaCodeUsed (db : Db) (c : String) : Bool :=
  db.media.any (fun r => r.short_code = c)

/-- Handler of `POST /api/links`: rejects a missing/empty `originalUrl`
(JS falsy check, no length check), retries the generator until the code is
unused in `links`, then inserts the row with `clicks = 0`.  `none` only
when the supplied generator draws run out. -/
def postLink (db : Db) (draws : List (Nat → Nat)) (originalUrl creator : String)
    (now : Nat) : Option (Db × ApiResult LinkRow) :=
  if originalUrl = "" then some (db, .badRequest "Original URL is required")
  else
    match pickFresh (linkCodeUsed db) draws with
    | none => none
    | some code =>
      let row : LinkRow :=
        ⟨code, originalUrl, if creator = "" then "anonymous" else creator, now, 0⟩
      some ({ db with links := db.links ++ [row] }, .ok row)

/-- Handler of `POST /api/media`: the JS falsy check
`if (!ipfsHash || !fileName || !fileType || !fileSize)` rejects empty
strings and a zero `fileSize`; then the same retry-and-insert, with
`views = 0`. -/
def postMedia (db : Db) (draws : List (Nat → Nat))
    (ipfsHash fileName fileType : String) (fileSize : Nat) (creator : String)
    (now : Nat) : Option (Db × ApiResult MediaRow) :=
  if ipfsHash = "" ∨ fileName = "" ∨ fileType = "" ∨ fileSize = 0 then
    some (db, .badRequest "Missing required fields")
  else
    match pickFresh (mediaCodeUsed db) draws with
    | none => none
    | some code =>
      let row : MediaRow :=
        ⟨code, ipfsHash, fileName, fileType, fileSize,
          if creator = "" then "anonymous" else creator, now, 0⟩
      some ({ db with media := db.media ++ [row] }, .ok row)

/-- Handler of `GET /api/links/:shortCode` (non-counting peek):
`SELECT * FROM links WHERE short_code = ?`, 404 if absent. -/
def getLinkHandler (db : Db) (code : String) : Db × ApiResult LinkRow :=
  match db.links.find? (fun r => r.short_code = code) with
  | none => (db, .notFound "Link not found")
  | some l => (db, .ok l)

/-- Handler of `GET /api/media/:shortCode` (non-counting peek). -/
def getMediaHandler (db : Db) (code : String) : Db × ApiResult MediaRow :=
  match db.media.find? (fun r => r.short_code = code) with
  | none => (db, .notFound "Media not found")
  | some m => (db, .ok m)

/-- Handler of `GET /api/links/:shortCode/redirect`: 404 if absent,
otherwise `UPDATE links SET clicks = clicks + 1 WHERE short_code = ?` and
respond with the (pre-read) `originalUrl`. -/
def redirectHandler (db : Db) (code : String) : Db × ApiResult String :=
  match db.links.find? (fun r => r.short_code = code) with
  | none => (db, .notFound "Link not found")
  | some l =>
    ({ db with
        links := db.links.map fun r =>
          if r.short_code = code then { r with clicks := r.clicks + 1 } else r },
      .ok l.original_url)

/-- Handler of `GET /api/media/:shortCode/view`: 404 if absent, otherwise
increment `views` in the table and respond with the record carrying
`views: media.views + 1` (the post-increment value). -/
def mediaViewHandler (db : Db) (code : String) : Db × ApiResult MediaRow :=
  match db.media.find? (fun r => r.short_code = code) with
  | none => (db, .notFound "Media not found")
  | some m =>
    ({ db with
        media := db.media.map fun r =>
          if r.short_code = code then { r with views := r.views + 1 } else r },
      .ok { m with views := m.views + 1 })

/-- Sort by a Nat key in non-increasing order; models
`ORDER BY created_at DESC` (tie order among equal keys is not promised by
SQLite and no theorem below relies on it). -/
def sortDescBy {α : Type} (key : α → Nat) (l : List α) : List α :=
  l.insertionSort (fun a b => key b ≤ key a)

/-- Handler of `GET /api/users/:walletAddress/links`:
`SELECT * FROM links WHERE creator = ? ORDER BY created_at DESC LIMIT 10`. -/
def userLinksRows (db : Db) (wallet : String) : List LinkRow :=
  (sortDescBy (fun r => r.created_at)
    (db.links.filter (fun r => r.creator = wallet))).take 10

/-- Handler of `GET /api/users/:walletAddress/media` (same shape). -/
def userMediaRows (db : Db) (wallet : String) : List MediaRow :=
  (sortDescBy (fun r => r.created_at)
    (db.media.filter (fun r => r.creator = wallet))).take 10

/-- Handler of `GET /api/stats`:
`SELECT COUNT(*) FROM links` / `... FROM media`, i.e. the current row
counts. -/
def statsHandler (db : Db) : Nat × Nat :=
  (db.links.length, db.media.length)

/-- Handler of `DELETE /api/admin/links/:shortCode`:
`DELETE FROM links WHERE short_code = ?`; 404 when `result.changes = 0`. -/
def adminDeleteLink (db : Db) (code : String) : Db × ApiResult Unit :=
  let changes := (db.links.filter (fun r => r.short_code = code)).length
  if changes = 0 then (db, .notFound "Link not found")
  else ({ db with links := db.links.filter (fun r => ¬ r.short_code = code) }, .ok ())

/-- Handler of `DELETE /api/admin/media/:shortCode`. -/
def adminDeleteMedia (db : Db) (code : String) : Db × ApiResult Unit :=
  let changes := (db.media.filter (fun r => r.short_code = code)).length
  if changes = 0 then (db, .notFound "Media not found")
  else ({ db with media := db.media.filter (fun r => ¬ r.short_code = code) }, .ok ())

/-- One incoming request to the service, with the random draws a creation
would consume. -/
inductive Op where
  | createLink (draws : List (Nat → Nat)) (url creator : String) (now : Nat)
  | createMedia (draws : List (Nat → Nat)) (ipfsHash fileName fileType : String)
      (fileSize : Nat) (creator : String) (now : Nat)
  | peekLink (code : String)
  | peekMedia (code : String)
  | redirect (code : String)
  | mediaView (code : String)
  | listUserLinks (wallet : String)
  | listUserMedia (wallet : String)
  | stats
  | deleteLink (code : String)
  | deleteMedia (code : String)

/-- State transition of one request: the database after the handler ran
(a creation whose draws ran out is still looping and has changed nothing). -/
def applyOp (db : Db) : Op → Db
  | .createLink draws url creator now =>
    match postLink db draws url creator now with
    | some (db', _) => db'
    | none => db
  | .createMedia draws h fn ft fs creator now =>
    match postMedia db draws h fn ft fs creator now with
    | some (db', _) => db'
    | none => db
  | .peekLink code => (getLinkHandler db code).1
  | .peekMedia code => (getMediaHandler db code).1
  | .redirect code => (redirectHandler db code).1
  | .mediaView code => (mediaViewHandler db code).1
  | .listUserLinks _ => db
  | .listUserMedia _ => db
  | .stats => db
  | .deleteLink code => (adminDeleteLink db code).1
  | .deleteMedia code => (adminDeleteMedia db code).1

/-- Database reached after a sequence of requests. -/
def runOps (db : Db) (ops : List Op) : Db :=
  ops.foldl applyOp db

/-- Clicks column of the (first) `links` row with the given code. -/
def clicksOf (db : Db) (code : String) : Option Nat :=
  (db.links.find? (fun r => r.short_code = code)).map (fun r => r.clicks)

/-- Views column of the (first) `media` row with the given code. -/
def viewsOf (db : Db) (code : String) : Option Nat :=
  (db.media.find? (fun r => r.short_code = code)).map (fun r => r.views)

/-- A link row with this code is present at the start and after every
request of the sequence. -/
def linkAlwaysPresent (code : String) : Db → List Op → Prop
  | db, [] => linkCodeUsed db code = true
  | db, op :: ops =>
    linkCodeUsed db code = true ∧ linkAlwaysPresent code (applyOp db op) ops

/-- A media row with this code is present at the start and after every
request of the sequence. -/
def mediaAlwaysPresent (code : String) : Db → List Op → Prop
  | db, [] => mediaCodeUsed db code = true
  | db, op :: ops =>
    mediaCodeUsed db code = true ∧ mediaAlwaysPresent code (applyOp db op) ops

/-- The two peek requests, the only operations claim C10 is about. -/
def Op.isPeek : Op → Bool
  | .peekLink _ => true
  | .peekMedia _ => true
  | _ => false

/-! ## Contract (LinkIO.sol) data model -/

/-- Solidity enum `ContentType { LINK, MEDIA }`. -/
inductive ContentType where
  | LINK
  | MEDIA
deriving DecidableEq

/-- Solidity struct `LinkData` (the `exists` flag is modelled by presence
in the `links` map). -/
structure LinkData where
  originalUrl : String
  creator : String
  createdAt : Nat
  clicks : Nat
deriving DecidableEq

/-- Solidity struct `MediaData`. -/
structure MediaData where
  ipfsHash : String
  fileName : String
  fileType : String
  fileSize : Nat
  creator : String
  createdAt : Nat
  views : Nat
deriving DecidableEq

/-- Contract storage: the two counters, the two code-to-record mappings
(`none` models a slot whose `exists` flag is false), and the per-address
code arrays `userLinks` / `userMedia`. -/
structure CState where
  linkCounter : Nat
  mediaCounter : Nat
  links : String → Option LinkData
  media : String → Option MediaData
  userLinks : String → List String
  userMedia : String → List String

/-- Freshly deployed contract: zero counters, empty mappings. -/
def initialCState : CState :=
  ⟨0, 0, fun _ => none, fun _ => none, fun _ => [], fun _ => []⟩

/-- Transaction environment of one contract call: `block.timestamp`,
`block.prevrandao`, `msg.sender`, and the `keccak256(abi.encodePacked ...)`
hash applied to those plus the counter, kept abstract as a function. -/
structure Env where
  timestamp : Nat
  prevrandao : Nat
  sender : String
  keccak : Nat → Nat → String → Nat → Nat

/-- The base-62 digit extraction loop of `_generateShortCode`:
`shortCode[i] = chars[seed % 62]; seed = seed / 62`, run `n` times. -/
def seedChars : Nat → Nat → List Char
  | _, 0 => []
  | seed, n + 1 => alphabet.getD (seed % 62) 'a' :: seedChars (seed / 62) n

/-- The 6-character string `_generateShortCode` builds from a seed. -/
def codeOfSeed (seed : Nat) : String :=
  String.mk (seedChars seed 6)

/-- Contract `_generateShortCode`: increments the counter of the requested
namespace, hashes `(block.timestamp, block.prevrandao, msg.sender, counter)`
into a seed, and turns the seed into 6 base-62 characters.  Returns the
code together with the updated storage. -/
def generateShortCodeC (env : Env) (ct : ContentType) (s : CState) :
    String × CState :=
  match ct with
  | .LINK =>
    let s' := { s with linkCounter := s.linkCounter + 1 }
    (codeOfSeed (env.keccak env.timestamp env.prevrandao env.sender s'.linkCounter), s')
  | .MEDIA =>
    let s' := { s with mediaCounter := s.mediaCounter + 1 }
    (codeOfSeed (env.keccak env.timestamp env.prevrandao env.sender s'.mediaCounter), s')

/-- The `while (links[shortCode].exists)` regeneration loop of
`createShortLink`, fuelled by the number of generator calls still allowed
(the real loop is unbounded). -/
def genLoopLink (env : Env) : Nat → CState → Option (String × CState)
  | 0, _ => none
  | fuel + 1, s =>
    let (c, s') := generateShortCodeC env .LINK s
    if (s'.links c).isSome then genLoopLink env fuel s' else some (c, s')

/-- The regeneration loop of `uploadMedia` against the media mapping. -/
def genLoopMedia (env : Env) : Nat → CState → Option (String × CState)
  | 0, _ => none
  | fuel + 1, s =>
    let (c, s') := generateShortCodeC env .MEDIA s
    if (s'.media c).isSome then genLoopMedia env fuel s' else some (c, s')

/-- Outcome of a contract call that can revert with a require message. -/
inductive CallResult (α : Type) where
  | ok : α → CallResult α
  | reverted : String → CallResult α
deriving DecidableEq

/-- Boolean test: did the call revert. -/
def CallResult.isRevert {α : Type} : CallResult α → Bool
  | .reverted _ => true
  | _ => false

/-- Contract `createShortLink`: requires a non-empty URL of at most 2048
bytes (`bytes(originalUrl).length`), finds an unused code through the
regeneration loop, stores the `LinkData` with `clicks = 0` and
`createdAt = block.timestamp`, and pushes the code onto
`userLinks[msg.sender]`.  `none` when the loop fuel runs out. -/
def createShortLink (env : Env) (fuel : Nat) (s : CState) (originalUrl : String) :
    Option (CState × CallResult String) :=
  if originalUrl.utf8ByteSize = 0 then some (s, .reverted "URL cannot be empty")
  else if 2048 < originalUrl.utf8ByteSize then some (s, .reverted "URL too long")
  else
    match genLoopLink env fuel s with
    | none => none
    | some (code, s') =>
      some
        ({ s' with
            links := fun c =>
              if c = code then
                some ⟨originalUrl, env.sender, env.timestamp, 0⟩
              else s'.links c,
            userLinks := fun a =>
              if a = env.sender then s'.userLinks a ++ [code] else s'.userLinks a },
          .ok code)

/-- Contract `uploadMedia`: requires non-empty `ipfsHash` and `fileName`
(no check at all on `fileType` or `fileSize`), then the same
loop-store-push against the media namespace with `views = 0`. -/
def uploadMedia (env : Env) (fuel : Nat) (s : CState)
    (ipfsHash fileName fileType : String) (fileSize : Nat) :
    Option (CState × CallResult String) :=
  if ipfsHash.utf8ByteSize = 0 then some (s, .reverted "IPFS hash cannot be empty")
  else if fileName.utf8ByteSize = 0 then some (s, .reverted "File name cannot be empty")
  else
    match genLoopMedia env fuel s with
    | none => none
    | some (code, s') =>
      some
        ({ s' with
            media := fun c =>
              if c = code then
                some ⟨ipfsHash, fileName, fileType, fileSize, env.sender, env.timestamp, 0⟩
              else s'.media c,
            userMedia := fun a =>
              if a = env.sender then s'.userMedia a ++ [code] else s'.userMedia a },
          .ok code)

/-- Contract `getLink` (counting resolve): reverts if the code is unknown,
otherwise `links[shortCode].clicks++` and returns the stored URL
(`msg.sender` feeds only the emitted event, so no `Env` is needed). -/
def getLink (s : CState) (code : String) :
    CState × CallResult String :=
  match s.links code with
  | none => (s, .reverted "Link does not exist")
  | some l =>
    ({ s with
        links := fun c =>
          if c = code then some { l with clicks := l.clicks + 1 } else s.links c },
      .ok l.originalUrl)

/-- Contract `getMedia` (counting resolve): reverts if unknown, otherwise
`media[shortCode].views++` and returns the descriptive fields. -/
def getMedia (s : CState) (code : String) :
    CState × CallResult (String × String × String × Nat) :=
  match s.media code with
  | none => (s, .reverted "Media does not exist")
  | some m =>
    ({ s with
        media := fun c =>
          if c = code then some { m with views := m.views + 1 } else s.media c },
      .ok (m.ipfsHash, m.fileName, m.fileType, m.fileSize))

/-- Contract `getLinkData` (view, non-counting peek): returns the stored
fields, `none` models the revert on a missing code.  Being a Solidity
`view` function it cannot write storage, so it returns no state. -/
def getLinkData (s : CState) (code : String) :
    Option (String × String × Nat × Nat) :=
  (s.links code).map fun l => (l.originalUrl, l.creator, l.createdAt, l.clicks)

/-- Contract `getMediaData` (view, non-counting peek). -/
def getMediaData (s : CState) (code : String) :
    Option (String × String × String × Nat × String × Nat × Nat) :=
  (s.media code).map fun m =>
    (m.ipfsHash, m.fileName, m.fileType, m.fileSize, m.creator, m.createdAt, m.views)

/-- Contract `getUserLinks` (view): the raw `userLinks[user]` array. -/
def getUserLinks (s : CState) (user : String) : List String :=
  s.userLinks user

/-- Contract `getUserMedia` (view). -/
def getUserMedia (s : CState) (user : String) : List String :=
  s.userMedia user

/-- Contract `getTotalLinks` (view): `_linkCounter.current()`. -/
def getTotalLinks (s : CState) : Nat := s.linkCounter

/-- Contract `getTotalMedia` (view): `_mediaCounter.current()`. -/
def getTotalMedia (s : CState) : Nat := s.mediaCounter

/-- Contract `linkExists` (view). -/
def linkExists (s : CState) (code : String) : Bool := (s.links code).isSome

/-- Contract `mediaExists` (view). -/
def mediaExists (s : CState) (code : String) : Bool := (s.media code).isSome

/-! ## Creation sequences (for the uniqueness claim) -/

/-- Codes assigned by a sequence of creation requests: `step` runs one
request against the state, `out` is the short code it returned on success
(`none` on a validation failure or an unfinished retry loop). -/
def collectCodes {σ ι : Type} (step : σ → ι → σ) (out : σ → ι → Option String) :
    σ → List ι → List String
  | _, [] => []
  | s, i :: is =>
    match out s i with
    | some c => c :: collectCodes step out (step s i) is
    | none => collectCodes step out (step s i) is

/-- One `POST /api/links` request: random draws plus the request body. -/
structure LinkReq where
  draws : List (Nat → Nat)
  url : String
  creator : String
  now : Nat

/-- One `POST /api/media` request. -/
structure MediaReq where
  draws : List (Nat → Nat)
  ipfsHash : String
  fileName : String
  fileType : String
  fileSize : Nat
  creator : String
  now : Nat

/-- One `createShortLink` transaction: environment, retry fuel, URL. -/
structure CLinkReq where
  env : Env
  fuel : Nat
  url : String

/-- One `uploadMedia` transaction. -/
structure CMediaReq where
  env : Env
  fuel : Nat
  ipfsHash : String
  fileName : String
  fileType : String
  fileSize : Nat

/-- Database after one `POST /api/links` request. -/
def linkCreateStep (db : Db) (i : LinkReq) : Db :=
  match postLink db i.draws i.url i.creator i.now with
  | some (db', _) => db'
  | none => db

/-- Short code assigned by one `POST /api/links` request, if it succeeded. -/
def linkCreateOut (db : Db) (i : LinkReq) : Option String :=
  match postLink db i.draws i.url i.creator i.now with
  | some (_, .ok row) => some row.short_code
  | _ => none

/-- Database after one `POST /api/media` request. -/
def mediaCreateStep (db : Db) (i : MediaReq) : Db :=
  match postMedia db i.draws i.ipfsHash i.fileName i.fileType i.fileSize i.creator i.now with
  | some (db', _) => db'
  | none => db

/-- Short code assigned by one `POST /api/media` request, if it succeeded. -/
def mediaCreateOut (db : Db) (i : MediaReq) : Option String :=
  match postMedia db i.draws i.ipfsHash i.fileName i.fileType i.fileSize i.creator i.now with
  | some (_, .ok row) => some row.short_code
  | _ => none

/-- Contract storage after one `createShortLink` transaction. -/
def cLinkCreateStep (s : CState) (i : CLinkReq) : CState :=
  match createShortLink i.env i.fuel s i.url with
  | some (s', _) => s'
  | none => s

/-- Short code assigned by one `createShortLink` transaction, if it
completed without reverting. -/
def cLinkCreateOut (s : CState) (i : CLinkReq) : Option String :=
  match createShortLink i.env i.fuel s i.url with
  | some (_, .ok c) => some c
  | _ => none

/-- Contract storage after one `uploadMedia` transaction. -/
def cMediaCreateStep (s : CState) (i : CMediaReq) : CState :=
  match uploadMedia i.env i.fuel s i.ipfsHash i.fileName i.fileType i.fileSize with
  | some (s', _) => s'
  | none => s

/-- Short code assigned by one `uploadMedia` transaction, if it completed
without reverting. -/
def cMediaCreateOut (s : CState) (i : CMediaReq) : Option String :=
  match uploadMedia i.env i.fuel s i.ipfsHash i.fileName i.fileType i.fileSize with
  | some (_, .ok c) => some c
  | _ => none

/-! ## Result shape helpers and concrete fixtures -/

/-- A creation-route call ended in HTTP 200. -/
def createOk {α : Type} : Option (Db × ApiResult α) → Bool
  | some (_, r) => r.isOk
  | none => false

/-- A creation-route call ended in HTTP 400. -/
def createBad {α : Type} : Option (Db × ApiResult α) → Bool
  | some (_, r) => r.isBad
  | none => false

/-- A contract creation call completed and reverted with a require
message. -/
def callReverted {α : Type} : Option (CState × CallResult α) → Bool
  | some (_, r) => r.isRevert
  | none => false

/-- A contract creation call completed successfully. -/
def callOk {α : Type} : Option (CState × CallResult α) → Bool
  | some (_, .ok _) => true
  | _ => false

/-- Random draw producing byte 0 at every index, so the service generator
yields `"aaaaaa"`. -/
def drawA : Nat → Nat := fun _ => 0

/-- A 2049-character URL (one character over the contract's 2048 cap). -/
def bigUrl : String := String.mk (List.replicate 2049 'a')

/-- Environment with a constant-zero hash, for probing the contract
generator. -/
def env0 : Env := ⟨0, 0, "user", fun _ _ _ _ => 0⟩

/-- Environment at block time `t`, sender `"alice"`, whose hash returns
the namespace counter, so successive creations get the distinct codes
`codeOfSeed 1`, `codeOfSeed 2`, .... -/
def envT (t : Nat) : Env := ⟨t, 0, "alice", fun _ _ _ counter => counter⟩

/-- Eleven `links` rows owned by `"alice"` with distinct codes and
distinct creation times. -/
def db11 : Db :=
  ⟨[⟨"aaaaa0", "https://example.com/0", "alice", 0, 0⟩,
    ⟨"aaaaa1", "https://example.com/1", "alice", 1, 0⟩,
    ⟨"aaaaa2", "https://example.com/2", "alice", 2, 0⟩,
    ⟨"aaaaa3", "https://example.com/3", "alice", 3, 0⟩,
    ⟨"aaaaa4", "https://example.com/4", "alice", 4, 0⟩,
    ⟨"aaaaa5", "https://example.com/5", "alice", 5, 0⟩,
    ⟨"aaaaa6", "https://example.com/6", "alice", 6, 0⟩,
    ⟨"aaaaa7", "https://example.com/7", "alice", 7, 0⟩,
    ⟨"aaaaa8", "https://example.com/8", "alice", 8, 0⟩,
    ⟨"aaaaa9", "https://example.com/9", "alice", 9, 0⟩,
    ⟨"aaaab0", "https://example.com/10", "alice", 10, 0⟩], []⟩

/-- Database holding exactly the one link the request in
`linkio_C4_counterexample` creates. -/
def cex4db1 : Db :=
  applyOp emptyDb (.createLink [drawA] "https://example.com" "alice" 0)

/-- The same database after `DELETE /api/admin/links/aaaaaa`. -/
def cex4db2 : Db := applyOp cex4db1 (.deleteLink "aaaaaa")

/-- Contract storage after `createShortLink` at block time 1. -/
def cex5s1 : CState := cLinkCreateStep initialCState ⟨envT 1, 1, "https://one.example"⟩

/-- Contract storage after a second `createShortLink` at block time 2. -/
def cex5s2 : CState := cLinkCreateStep cex5s1 ⟨envT 2, 1, "https://two.example"⟩

/-- Database whose media namespace already holds the code `"aaaaaa"`. -/
def cex9db : Db :=
  ⟨[], [⟨"aaaaaa", "QmTest123", "a.png", "image/png", 1024000, "alice", 0, 0⟩]⟩

/-- The `POST /api/links` request used to probe namespace isolation. -/
def req9 : LinkReq := ⟨[drawA], "https://example.com/test", "alice", 0⟩

/-- Contract storage with the same counters as a fresh deployment but a
non-empty link mapping (to probe that the generator ignores the maps). -/
def cex8s : CState :=
  { initialCState with
      links := fun c =>
        if c = "aaaaaa" then some ⟨"https://example.com", "alice", 0, 0⟩ else none }

/-! ## Helper lemmas -/

theorem find?_append_some {α : Type} {p : α → Bool} {l l₂ : List α} {a : α}
    (h : l.find? p = some a) : (l ++ l₂).find? p = some a := by
  rw [List.find?_append, h, Option.or]

theorem find?_filter_of_imp {α : Type} {p q : α → Bool}
    (h : ∀ a, p a = true → q a = true) :
    ∀ l : List α, (l.filter q).find? p = l.find? p := by
  intro l
  induction l with
  | nil => rfl
  | cons x xs ih =>
    cases hq : q x with
    | true =>
      cases hp : p x <;>
        simp [List.filter_cons, hq, List.find?_cons, hp, ih]
    | false =>
      have hp : p x = false := by
        cases hpx : p x
        · rfl
        · rw [h x hpx] at hq; cases hq
      simp [List.filter_cons, hq, List.find?_cons, hp, ih]

theorem find?_map_of_pres {α : Type} {f : α → α} {p : α → Bool}
    (h : ∀ a, p (f a) = p a) :
    ∀ l : List α, (l.map f).find? p = (l.find? p).map f := by
  intro l
  induction l with
  | nil => rfl
  | cons x xs ih =>
    cases hp : p x <;>
      simp [List.find?_cons, h x, hp, ih]

theorem any_iff_find?_isSome {α : Type} {p : α → Bool} {l : List α} :
    l.any p = true ↔ (l.find? p).isSome = true := by
  rw [List.any_eq_true, List.find?_isSome]

theorem pickFresh_not_used {isUsed : String → Bool} :
    ∀ {ds : List (Nat → Nat)} {c : String},
      pickFresh isUsed ds = some c → isUsed c = false := by
  intro ds
  induction ds with
  | nil => intro c h; cases h
  | cons d ds ih =>
    intro c h
    rw [pickFresh] at h
    by_cases hu : isUsed (generateShortCode d) = true
    · rw [if_pos hu] at h; exact ih h
    · rw [if_neg hu] at h
      cases h
      exact Bool.not_eq_true _ ▸ (Bool.eq_false_iff.mpr hu)

/-! ## Service creation-step lemmas -/

theorem postLink_success {db : Db} {draws : List (Nat → Nat)}
    {url creator : String} {now : Nat} {code : String}
    (hu : ¬ url = "") (hp : pickFresh (linkCodeUsed db) draws = some code) :
    postLink db draws url creator now =
      some ({ db with links := db.links ++
          [⟨code, url, if creator = "" then "anonymous" else creator, now, 0⟩] },
        .ok ⟨code, url, if creator = "" then "anonymous" else creator, now, 0⟩) := by
  unfold postLink
  rw [if_neg hu, hp]

theorem postMedia_success {db : Db} {draws : List (Nat → Nat)}
    {ipfsHash fileName fileType : String} {fileSize : Nat} {creator : String}
    {now : Nat} {code : String}
    (hu : ¬ (ipfsHash = "" ∨ fileName = "" ∨ fileType = "" ∨ fileSize = 0))
    (hp : pickFresh (mediaCodeUsed db) draws = some code) :
    postMedia db draws ipfsHash fileName fileType fileSize creator now =
      some ({ db with media := db.media ++
          [⟨code, ipfsHash, fileName, fileType, fileSize,
            if creator = "" then "anonymous" else creator, now, 0⟩] },
        .ok ⟨code, ipfsHash, fileName, fileType, fileSize,
          if creator = "" then "anonymous" else creator, now, 0⟩) := by
  unfold postMedia
  rw [if_neg hu, hp]

theorem linkCreateOut_fresh {db : Db} {i : LinkReq} {c : String}
    (h : linkCreateOut db i = some c) : linkCodeUsed db c = false := by
  unfold linkCreateOut postLink at h
  by_cases hu : i.url = ""
  · simp [hu] at h
  · cases hp : pickFresh (linkCodeUsed db) i.draws with
    | none => simp [hu, hp] at h
    | some code =>
      simp [hu, hp] at h
      exact h ▸ pickFresh_not_used hp

theorem linkCreateStep_of_out {db : Db} {i : LinkReq} {c : String}
    (h : linkCreateOut db i = some c) :
    ∃ row : LinkRow, row.short_code = c ∧
      (linkCreateStep db i).links = db.links ++ [row] ∧
      (linkCreateStep db i).media = db.media := by
  unfold linkCreateOut at h
  by_cases hu : i.url = ""
  · simp [postLink, hu] at h
  · cases hp : pickFresh (linkCodeUsed db) i.draws with
    | none => simp [postLink, hu, hp] at h
    | some code =>
      rw [postLink_success hu hp] at h
      simp at h
      refine ⟨⟨code, i.url, if i.creator = "" then "anonymous" else i.creator, i.now, 0⟩,
        h, ?_, ?_⟩ <;>
      · unfold linkCreateStep
        rw [postLink_success hu hp]

theorem linkCreateStep_used {db : Db} {i : LinkReq} {c : String}
    (h : linkCreateOut db i = some c) :
    linkCodeUsed (linkCreateStep db i) c = true := by
  obtain ⟨row, hrow, hlinks, _⟩ := linkCreateStep_of_out h
  unfold linkCodeUsed
  rw [hlinks, List.any_append]
  simp [hrow]

theorem linkCreateStep_mono {db : Db} {i : LinkReq} {c : String}
    (h : linkCodeUsed db c = true) :
    linkCodeUsed (linkCreateStep db i) c = true := by
  unfold linkCreateStep
  by_cases hu : i.url = ""
  · simpa [postLink, hu] using h
  · cases hp : pickFresh (linkCodeUsed db) i.draws with
    | none => simpa [postLink, hu, hp] using h
    | some code =>
      rw [postLink_success hu hp]
      unfold linkCodeUsed at h ⊢
      rw [List.any_append, h]
      rfl

theorem mediaCreateOut_fresh {db : Db} {i : MediaReq} {c : String}
    (h : mediaCreateOut db i = some c) : mediaCodeUsed db c = false := by
  unfold mediaCreateOut postMedia at h
  by_cases hu : i.ipfsHash = "" ∨ i.fileName = "" ∨ i.fileType = "" ∨ i.fileSize = 0
  · simp [hu] at h
  · cases hp : pickFresh (mediaCodeUsed db) i.draws with
    | none => simp [hu, hp] at h
    | some code =>
      simp [hu, hp] at h
      exact h ▸ pickFresh_not_used hp

theorem mediaCreateStep_of_out {db : Db} {i : MediaReq} {c : String}
    (h : mediaCreateOut db i = some c) :
    ∃ row : MediaRow, row.short_code = c ∧
      (mediaCreateStep db i).media = db.media ++ [row] ∧
      (mediaCreateStep db i).links = db.links := by
  unfold mediaCreateOut at h
  by_cases hu : i.ipfsHash = "" ∨ i.fileName = "" ∨ i.fileType = "" ∨ i.fileSize = 0
  · simp [postMedia, hu] at h
  · cases hp : pickFresh (mediaCodeUsed db) i.draws with
    | none => simp [postMedia, hu, hp] at h
    | some code =>
      rw [postMedia_success hu hp] at h
      simp at h
      refine ⟨⟨code, i.ipfsHash, i.fileName, i.fileType, i.fileSize,
        if i.creator = "" then "anonymous" else i.creator, i.now, 0⟩, h, ?_, ?_⟩ <;>
      · unfold mediaCreateStep
        rw [postMedia_success hu hp]

theorem mediaCreateStep_used {db : Db} {i : MediaReq} {c : String}
    (h : mediaCreateOut db i = some c) :
    mediaCodeUsed (mediaCreateStep db i) c = true := by
  obtain ⟨row, hrow, hmedia, _⟩ := mediaCreateStep_of_out h
  unfold mediaCodeUsed
  rw [hmedia, List.any_append]
  simp [hrow]

theorem mediaCreateStep_mono {db : Db} {i : MediaReq} {c : String}
    (h : mediaCodeUsed db c = true) :
    mediaCodeUsed (mediaCreateStep db i) c = true := by
  unfold mediaCreateStep
  by_cases hu : i.ipfsHash = "" ∨ i.fileName = "" ∨ i.fileType = "" ∨ i.fileSize = 0
  · simpa [postMedia, hu] using h
  · cases hp : pickFresh (mediaCodeUsed db) i.draws with
    | none => simpa [postMedia, hu, hp] using h
    | some code =>
      rw [postMedia_success hu hp]
      unfold mediaCodeUsed at h ⊢
      rw [List.any_append, h]
      rfl

/-! ## Generic pairwise-distinctness of accepted codes -/

theorem collectCodes_not_mem {σ ι : Type} {step : σ → ι → σ}
    {out : σ → ι → Option String} {used : σ → String → Bool}
    (hfresh : ∀ s i c, out s i = some c → used s c = false)
    (hmono : ∀ s i c, used s c = true → used (step s i) c = true) :
    ∀ (reqs : List ι) (s : σ) (c : String), used s c = true →
      c ∉ collectCodes step out s reqs := by
  intro reqs
  induction reqs with
  | nil => intro s c _ hmem; simp [collectCodes] at hmem
  | cons i is ih =>
    intro s c hc hmem
    rw [collectCodes] at hmem
    cases ho : out s i with
    | none =>
      rw [ho] at hmem
      exact ih (step s i) c (hmono s i c hc) hmem
    | some c' =>
      rw [ho] at hmem
      rcases List.mem_cons.mp hmem with h1 | h2
      · subst h1
        rw [hfresh s i c ho] at hc
        cases hc
      · exact ih (step s i) c (hmono s i c hc) h2

/-! ## Contract creation-step lemmas -/

theorem genLoopLink_spec {env : Env} :
    ∀ {fuel : Nat} {s s' : CState} {c : String},
      genLoopLink env fuel s = some (c, s') →
      s'.links = s.links ∧ s'.media = s.media ∧
      s'.userLinks = s.userLinks ∧ s'.userMedia = s.userMedia ∧
      s'.mediaCounter = s.mediaCounter ∧
      s.linkCounter ≤ s'.linkCounter ∧
      (s.links c).isSome = false := by
  intro fuel
  induction fuel with
  | zero => intro s s' c h; cases h
  | succ n ih =>
    intro s s' c h
    simp only [genLoopLink, generateShortCodeC] at h
    by_cases hc : ((CState.mk (s.linkCounter + 1) s.mediaCounter s.links s.media
        s.userLinks s.userMedia).links
        (codeOfSeed (env.keccak env.timestamp env.prevrandao env.sender
          (s.linkCounter + 1)))).isSome = true
    · rw [if_pos hc] at h
      obtain ⟨h1, h2, h3, h4, h5, h6, h7⟩ := ih h
      exact ⟨h1, h2, h3, h4, h5, Nat.le_trans (Nat.le_succ _) h6, h7⟩
    · rw [if_neg hc] at h
      cases h
      exact ⟨rfl, rfl, rfl, rfl, rfl, Nat.le_succ _,
        Bool.eq_false_iff.mpr hc⟩

theorem genLoopMedia_spec {env : Env} :
    ∀ {fuel : Nat} {s s' : CState} {c : String},
      genLoopMedia env fuel s = some (c, s') →
      s'.links = s.links ∧ s'.media = s.media ∧
      s'.userLinks = s.userLinks ∧ s'.userMedia = s.userMedia ∧
      s'.linkCounter = s.linkCounter ∧
      s.mediaCounter ≤ s'.mediaCounter ∧
      (s.media c).isSome = false := by
  intro fuel
  induction fuel with
  | zero => intro s s' c h; cases h
  | succ n ih =>
    intro s s' c h
    simp only [genLoopMedia, generateShortCodeC] at h
    by_cases hc : ((CState.mk s.linkCounter (s.mediaCounter + 1) s.links s.media
        s.userLinks s.userMedia).media
        (codeOfSeed (env.keccak env.timestamp env.prevrandao env.sender
          (s.mediaCounter + 1)))).isSome = true
    · rw [if_pos hc] at h
      obtain ⟨h1, h2, h3, h4, h5, h6, h7⟩ := ih h
      exact ⟨h1, h2, h3, h4, h5, Nat.le_trans (Nat.le_succ _) h6, h7⟩
    · rw [if_neg hc] at h
      cases h
      exact ⟨rfl, rfl, rfl, rfl, rfl, Nat.le_succ _,
        Bool.eq_false_iff.mpr hc⟩

theorem createShortLink_success {env : Env} {fuel : Nat} {s s₁ : CState}
    {url code : String}
    (h1 : ¬ url.utf8ByteSize = 0) (h2 : ¬ 2048 < url.utf8ByteSize)
    (hg : genLoopLink env fuel s = some (code, s₁)) :
    createShortLink env fuel s url =
      some ({ s₁ with
          links := fun c =>
            if c = code then some ⟨url, env.sender, env.timestamp, 0⟩ else s₁.links c,
          userLinks := fun a =>
            if a = env.sender then s₁.userLinks a ++ [code] else s₁.userLinks a },
        .ok code) := by
  unfold createShortLink
  rw [if_neg h1, if_neg h2, hg]

theorem uploadMedia_success {env : Env} {fuel : Nat} {s s₁ : CState}
    {ipfsHash fileName fileType : String} {fileSize : Nat} {code : String}
    (h1 : ¬ ipfsHash.utf8ByteSize = 0) (h2 : ¬ fileName.utf8ByteSize = 0)
    (hg : genLoopMedia env fuel s = some (code, s₁)) :
    uploadMedia env fuel s ipfsHash fileName fileType fileSize =
      some ({ s₁ with
          media := fun c =>
            if c = code then
              some ⟨ipfsHash, fileName, fileType, fileSize, env.sender, env.timestamp, 0⟩
            else s₁.media c,
          userMedia := fun a =>
            if a = env.sender then s₁.userMedia a ++ [code] else s₁.userMedia a },
        .ok code) := by
  unfold uploadMedia
  rw [if_neg h1, if_neg h2, hg]

theorem cLinkCreateOut_fresh {s : CState} {i : CLinkReq} {c : String}
    (h : cLinkCreateOut s i = some c) : linkExists s c = false := by
  unfold cLinkCreateOut at h
  by_cases h1 : i.url.utf8ByteSize = 0
  · simp [createShortLink, h1] at h
  · by_cases h2 : 2048 < i.url.utf8ByteSize
    · simp [createShortLink, h1, h2] at h
    · cases hg : genLoopLink i.env i.fuel s with
      | none => simp [createShortLink, h1, h2, hg] at h
      | some cs =>
        obtain ⟨code, s₁⟩ := cs
        rw [createShortLink_success h1 h2 hg] at h
        simp at h
        subst h
        exact (genLoopLink_spec hg).2.2.2.2.2.2

theorem cLinkCreateStep_used {s : CState} {i : CLinkReq} {c : String}
    (h : cLinkCreateOut s i = some c) :
    linkExists (cLinkCreateStep s i) c = true := by
  unfold cLinkCreateOut at h
  unfold cLinkCreateStep
  by_cases h1 : i.url.utf8ByteSize = 0
  · simp [createShortLink, h1] at h
  · by_cases h2 : 2048 < i.url.utf8ByteSize
    · simp [createShortLink, h1, h2] at h
    · cases hg : genLoopLink i.env i.fuel s with
      | none => simp [createShortLink, h1, h2, hg] at h
      | some cs =>
        obtain ⟨code, s₁⟩ := cs
        rw [createShortLink_success h1 h2 hg] at h ⊢
        simp at h
        subst h
        simp [linkExists]

theorem cLinkCreateStep_mono {s : CState} {i : CLinkReq} {c : String}
    (h : linkExists s c = true) :
    linkExists (cLinkCreateStep s i) c = true := by
  unfold cLinkCreateStep
  by_cases h1 : i.url.utf8ByteSize = 0
  · simpa [createShortLink, h1] using h
  · by_cases h2 : 2048 < i.url.utf8ByteSize
    · simpa [createShortLink, h1, h2] using h
    · cases hg : genLoopLink i.env i.fuel s with
      | none => simpa [createShortLink, h1, h2, hg] using h
      | some cs =>
        obtain ⟨code, s₁⟩ := cs
        rw [createShortLink_success h1 h2 hg]
        unfold linkExists at h ⊢
        by_cases hcc : c = code
        · simp [hcc]
        · simp only [if_neg hcc]
          rw [(genLoopLink_spec hg).1]
          exact h

theorem cMediaCreateOut_fresh {s : CState} {i : CMediaReq} {c : String}
    (h : cMediaCreateOut s i = some c) : mediaExists s c = false := by
  unfold cMediaCreateOut at h
  by_cases h1 : i.ipfsHash.utf8ByteSize = 0
  · simp [uploadMedia, h1] at h
  · by_cases h2 : i.fileName.utf8ByteSize = 0
    · simp [uploadMedia, h1, h2] at h
    · cases hg : genLoopMedia i.env i.fuel s with
      | none => simp [uploadMedia, h1, h2, hg] at h
      | some cs =>
        obtain ⟨code, s₁⟩ := cs
        rw [uploadMedia_success h1 h2 hg] at h
        simp at h
        subst h
        exact (genLoopMedia_spec hg).2.2.2.2.2.2

theorem cMediaCreateStep_used {s : CState} {i : CMediaReq} {c : String}
    (h : cMediaCreateOut s i = some c) :
    mediaExists (cMediaCreateStep s i) c = true := by
  unfold cMediaCreateOut at h
  unfold cMediaCreateStep
  by_cases h1 : i.ipfsHash.utf8ByteSize = 0
  · simp [uploadMedia, h1] at h
  · by_cases h2 : i.fileName.utf8ByteSize = 0
    · simp [uploadMedia, h1, h2] at h
    · cases hg : genLoopMedia i.env i.fuel s with
      | none => simp [uploadMedia, h1, h2, hg] at h
      | some cs =>
        obtain ⟨code, s₁⟩ := cs
        rw [uploadMedia_success h1 h2 hg] at h ⊢
        simp at h
        subst h
        simp [mediaExists]

theorem cMediaCreateStep_mono {s : CState} {i : CMediaReq} {c : String}
    (h : mediaExists s c = true) :
    mediaExists (cMediaCreateStep s i) c = true := by
  unfold cMediaCreateStep
  by_cases h1 : i.ipfsHash.utf8ByteSize = 0
  · simpa [uploadMedia, h1] using h
  · by_cases h2 : i.fileName.utf8ByteSize = 0
    · simpa [uploadMedia, h1, h2] using h
    · cases hg : genLoopMedia i.env i.fuel s with
      | none => simpa [uploadMedia, h1, h2, hg] using h
      | some cs =>
        obtain ⟨code, s₁⟩ := cs
        rw [uploadMedia_success h1 h2 hg]
        unfold mediaExists at h ⊢
        by_cases hcc : c = code
        · simp [hcc]
        · simp only [if_neg hcc]
          rw [(genLoopMedia_spec hg).2.1]
          exact h

theorem collectCodes_pairwise {σ ι : Type} {step : σ → ι → σ}
    {out : σ → ι → Option String} (used : σ → String → Bool)
    (hfresh : ∀ s i c, out s i = some c → used s c = false)
    (hadds : ∀ s i c, out s i = some c → used (step s i) c = true)
    (hmono : ∀ s i c, used s c = true → used (step s i) c = true) :
    ∀ (reqs : List ι) (s : σ),
      (collectCodes step out s reqs).Pairwise (· ≠ ·) := by
  intro reqs
  induction reqs with
  | nil => intro s; simp [collectCodes]
  | cons i is ih =>
    intro s
    rw [collectCodes]
    cases ho : out s i with
    | none => exact ih (step s i)
    | some c =>
      rw [List.pairwise_cons]
      refine ⟨fun b hb hcb => ?_, ih (step s i)⟩
      exact collectCodes_not_mem hfresh hmono is (step s i) c
        (hadds s i c ho) (hcb ▸ hb)

/-- C1: for every sequence of creation operations in one namespace —
`POST /api/links`, `POST /api/media`, contract `createShortLink`,
contract `uploadMedia` — starting from any state, the short codes assigned
by the successful creations are pairwise distinct: each creation retries
the generator until its candidate is absent from that namespace's existing
keys and only then inserts. -/
theorem linkio_C1_creation_codes_pairwise_distinct :
    (∀ (db : Db) (reqs : List LinkReq),
      (collectCodes linkCreateStep linkCreateOut db reqs).Pairwise (· ≠ ·)) ∧
    (∀ (db : Db) (reqs : List MediaReq),
      (collectCodes mediaCreateStep mediaCreateOut db reqs).Pairwise (· ≠ ·)) ∧
    (∀ (s : CState) (reqs : List CLinkReq),
      (collectCodes cLinkCreateStep cLinkCreateOut s reqs).Pairwise (· ≠ ·)) ∧
    (∀ (s : CState) (reqs : List CMediaReq),
      (collectCodes cMediaCreateStep cMediaCreateOut s reqs).Pairwise (· ≠ ·)) := by
  refine ⟨fun db reqs => ?_, fun db reqs => ?_, fun s reqs => ?_, fun s reqs => ?_⟩
  · exact collectCodes_pairwise linkCodeUsed
      (fun _ _ _ h => linkCreateOut_fresh h)
      (fun _ _ _ h => linkCreateStep_used h)
      (fun _ _ _ h => linkCreateStep_mono h) reqs db
  · exact collectCodes_pairwise mediaCodeUsed
      (fun _ _ _ h => mediaCreateOut_fresh h)
      (fun _ _ _ h => mediaCreateStep_used h)
      (fun _ _ _ h => mediaCreateStep_mono h) reqs db
  · exact collectCodes_pairwise linkExists
      (fun _ _ _ h => cLinkCreateOut_fresh h)
      (fun _ _ _ h => cLinkCreateStep_used h)
      (fun _ _ _ h => cLinkCreateStep_mono h) reqs s
  · exact collectCodes_pairwise mediaExists
      (fun _ _ _ h => cMediaCreateOut_fresh h)
      (fun _ _ _ h => cMediaCreateStep_used h)
      (fun _ _ _ h => cMediaCreateStep_mono h) reqs s

/-- C1 witness: a concrete two-request run from the empty database (the
second request reuses the draw whose code is now taken, so its retry loop
is left running and assigns nothing). -/
theorem linkio_C1_creation_codes_pairwise_distinct_witness :
    (collectCodes linkCreateStep linkCreateOut emptyDb [req9, req9]).Pairwise (· ≠ ·) :=
  linkio_C1_creation_codes_pairwise_distinct.1 emptyDb [req9, req9]

/-! ## Generator facts (C3, C8) -/

theorem byteChar_mem (b : Nat) : byteChar b ∈ alphabet := by
  unfold byteChar
  have h : b % alphabet.length < alphabet.length := Nat.mod_lt _ (by decide)
  rw [List.getD_eq_getElem?_getD, List.getElem?_eq_getElem h]
  exact List.getElem_mem ..

/-- C3 counterexample: the claim says each of the 62 alphabet symbols is
equally likely at every position given a uniform random source.  The
service generator maps a uniform byte `b` (0..255) to `chars[b % 62]`, so
the probability of a symbol `c` is `charWeight c / 256`; but 256 is not a
multiple of 62, and indeed `'a'` (alphabet index 0) has 5 preimage bytes
while `'9'` (index 61) has only 4 — the distribution is not uniform. -/
theorem linkio_C3_uniformity_counterexample :
    'a' ∈ alphabet ∧ '9' ∈ alphabet ∧
    charWeight 'a' = 5 ∧ charWeight '9' = 4 ∧
    charWeight 'a' ≠ charWeight '9' := by
  decide

/-- C3 amended: every generated code has exactly 6 characters, each drawn
from the 62-character alphanumeric alphabet as `chars[byte % 62]`
(positions are independent because each uses its own random byte); but the
per-symbol distribution under uniform bytes is biased, not uniform: the
first 8 alphabet symbols (`a`..`h`) have 5 of the 256 byte values each,
the remaining 54 have 4.  The contract's `_generateShortCode` also always
returns 6 characters from the same alphabet. -/
theorem linkio_C3_generator_length_and_bias :
    (alphabet.length = 62 ∧ alphabet.Nodup) ∧
    (∀ bytes : Nat → Nat, (generateShortCode bytes).length = 6) ∧
    (∀ (bytes : Nat → Nat) (i : Fin 6),
      (generateShortCode bytes).data[i.val]? = some (byteChar (bytes i.val))) ∧
    (∀ (bytes : Nat → Nat) (c : Char),
      c ∈ (generateShortCode bytes).data → c ∈ alphabet) ∧
    (∀ j : Fin 62,
      charWeight (alphabet.getD j.val 'a') = if j.val < 8 then 5 else 4) ∧
    (∀ seed : Nat, (codeOfSeed seed).length = 6) := by
  refine ⟨by decide, fun bytes => rfl, fun bytes i => ?_, fun bytes c hc => ?_,
    by decide, fun seed => rfl⟩
  · fin_cases i <;> rfl
  · have hc' : c ∈ (List.range 6).map (fun i => byteChar (bytes i)) := hc
    rcases List.mem_map.mp hc' with ⟨i, _, rfl⟩
    exact byteChar_mem (bytes i)

/-- C3 witness: the first character of the all-zero-bytes code is in the
alphabet. -/
theorem linkio_C3_generator_length_and_bias_witness : 'a' ∈ alphabet :=
  linkio_C3_generator_length_and_bias.2.2.2.1 drawA 'a' (by decide)

/-- C8 counterexample: the claim says a call to the code generator leaves
the entire registry state — including the per-namespace total counters —
unchanged.  The contract's `_generateShortCode` increments the counter of
the requested namespace: on a fresh deployment the link counter moves from
0 to 1. -/
theorem linkio_C8_counterexample :
    ((generateShortCodeC env0 ContentType.LINK initialCState).2).linkCounter ≠
      initialCState.linkCounter := by
  decide

/-- C8 amended: neither generator checks uniqueness (the contract
generator's output depends only on the environment and the counters, never
on the stored maps; the service generator reads no registry state at all —
its only input is the random bytes) and both leave stored records and
per-user code lists unchanged; but the contract generator does mutate
registry state: it increments the invoked namespace's counter by exactly 1
(the service generator touches nothing). -/
theorem linkio_C8_generator_frame :
    (∀ (env : Env) (ct : ContentType) (s : CState),
      ((generateShortCodeC env ct s).2).links = s.links ∧
      ((generateShortCodeC env ct s).2).media = s.media ∧
      ((generateShortCodeC env ct s).2).userLinks = s.userLinks ∧
      ((generateShortCodeC env ct s).2).userMedia = s.userMedia) ∧
    (∀ (env : Env) (ct : ContentType) (s₁ s₂ : CState),
      s₁.linkCounter = s₂.linkCounter → s₁.mediaCounter = s₂.mediaCounter →
      (generateShortCodeC env ct s₁).1 = (generateShortCodeC env ct s₂).1) ∧
    (∀ (env : Env) (s : CState),
      ((generateShortCodeC env ContentType.LINK s).2).linkCounter = s.linkCounter + 1 ∧
      ((generateShortCodeC env ContentType.LINK s).2).mediaCounter = s.mediaCounter ∧
      ((generateShortCodeC env ContentType.MEDIA s).2).mediaCounter = s.mediaCounter + 1 ∧
      ((generateShortCodeC env ContentType.MEDIA s).2).linkCounter = s.linkCounter) := by
  refine ⟨fun env ct s => ?_, fun env ct s₁ s₂ h1 h2 => ?_,
    fun env s => ⟨rfl, rfl, rfl, rfl⟩⟩
  · cases ct <;> exact ⟨rfl, rfl, rfl, rfl⟩
  · cases ct <;> simp [generateShortCodeC, h1, h2]

/-- C8 witness: the contract generator produces the same code from a fresh
deployment and from a storage whose link map already holds a record, since
it never consults the maps. -/
theorem linkio_C8_generator_frame_witness :
    (generateShortCodeC env0 ContentType.LINK initialCState).1 =
      (generateShortCodeC env0 ContentType.LINK cex8s).1 :=
  linkio_C8_generator_frame.2.1 env0 ContentType.LINK initialCState cex8s rfl rfl

/-! ## Peek purity (C10) -/

theorem getLinkHandler_state (db : Db) (c : String) :
    (getLinkHandler db c).1 = db := by
  rcases hf : db.links.find? (fun r => r.short_code = c) with _ | l <;>
    simp [getLinkHandler, hf]

theorem getMediaHandler_state (db : Db) (c : String) :
    (getMediaHandler db c).1 = db := by
  rcases hf : db.media.find? (fun r => r.short_code = c) with _ | m <;>
    simp [getMediaHandler, hf]

theorem runOps_peek_id :
    ∀ (ops : List Op) (db : Db), (∀ o ∈ ops, o.isPeek = true) →
      runOps db ops = db := by
  intro ops
  induction ops with
  | nil => intro db _; rfl
  | cons o os ih =>
    intro db h
    have ho : o.isPeek = true := h o (List.mem_cons_self o os)
    have hos : ∀ o' ∈ os, o'.isPeek = true := fun o' h' => h o' (List.mem_cons_of_mem o h')
    have hstep : applyOp db o = db := by
      cases o with
      | peekLink c => exact getLinkHandler_state db c
      | peekMedia c => exact getMediaHandler_state db c
      | createLink draws url creator now => cases ho
      | createMedia draws ih fn ft fs cr now => cases ho
      | redirect c => cases ho
      | mediaView c => cases ho
      | listUserLinks w => cases ho
      | listUserMedia w => cases ho
      | stats => cases ho
      | deleteLink c => cases ho
      | deleteMedia c => cases ho
    show runOps (applyOp db o) os = db
    rw [hstep]
    exact ih db hos

/-- C10: the non-counting peeks are pure and idempotent.  In the service,
`GET /api/links/:shortCode` and `GET /api/media/:shortCode` leave the
database unchanged, any sequence of peek requests leaves it unchanged, and
repeating a peek after any sequence of peeks returns the same response.
In the contract, the `view` functions `getLinkData`/`getMediaData` return
the stored record — in particular the pre-increment counter — without
touching storage. -/
theorem linkio_C10_peek_pure :
    (∀ (db : Db) (c : String),
      (getLinkHandler db c).1 = db ∧ (getMediaHandler db c).1 = db) ∧
    (∀ (db : Db) (ops : List Op), (∀ o ∈ ops, o.isPeek = true) →
      runOps db ops = db) ∧
    (∀ (db : Db) (ops : List Op) (c : String), (∀ o ∈ ops, o.isPeek = true) →
      getLinkHandler (runOps db ops) c = getLinkHandler db c ∧
      getMediaHandler (runOps db ops) c = getMediaHandler db c) ∧
    (∀ (s : CState) (c : String) (l : LinkData), s.links c = some l →
      getLinkData s c = some (l.originalUrl, l.creator, l.createdAt, l.clicks)) ∧
    (∀ (s : CState) (c : String) (m : MediaData), s.media c = some m →
      getMediaData s c =
        some (m.ipfsHash, m.fileName, m.fileType, m.fileSize, m.creator,
          m.createdAt, m.views)) := by
  refine ⟨fun db c => ⟨getLinkHandler_state db c, getMediaHandler_state db c⟩,
    fun db ops => runOps_peek_id ops db, fun db ops c h => ?_, fun s c l h => ?_,
    fun s c m h => ?_⟩
  · rw [runOps_peek_id ops db h]
    exact ⟨rfl, rfl⟩
  · unfold getLinkData
    rw [h]
    rfl
  · unfold getMediaData
    rw [h]
    rfl

/-- C10 witness: one concrete peek on a one-row database changes nothing. -/
theorem linkio_C10_peek_pure_witness :
    runOps cex4db1 [Op.peekLink "aaaaaa"] = cex4db1 :=
  linkio_C10_peek_pure.2.1 cex4db1 [Op.peekLink "aaaaaa"] (by decide)

/-! ## Namespace isolation (C9) -/

theorem linkCreateStep_media (db : Db) (i : LinkReq) :
    (linkCreateStep db i).media = db.media := by
  unfold linkCreateStep
  by_cases hu : i.url = ""
  · simp [postLink, hu]
  · cases hp : pickFresh (linkCodeUsed db) i.draws with
    | none => simp [postLink, hu, hp]
    | some code => rw [postLink_success hu hp]

theorem mediaCreateStep_links (db : Db) (i : MediaReq) :
    (mediaCreateStep db i).links = db.links := by
  unfold mediaCreateStep
  by_cases hu : i.ipfsHash = "" ∨ i.fileName = "" ∨ i.fileType = "" ∨ i.fileSize = 0
  · simp [postMedia, hu]
  · cases hp : pickFresh (mediaCodeUsed db) i.draws with
    | none => simp [postMedia, hu, hp]
    | some code => rw [postMedia_success hu hp]

theorem redirectHandler_media (db : Db) (c : String) :
    (redirectHandler db c).1.media = db.media := by
  rcases hf : db.links.find? (fun r => r.short_code = c) with _ | l <;>
    simp [redirectHandler, hf]

theorem mediaViewHandler_links (db : Db) (c : String) :
    (mediaViewHandler db c).1.links = db.links := by
  rcases hf : db.media.find? (fun r => r.short_code = c) with _ | m <;>
    simp [mediaViewHandler, hf]

theorem adminDeleteLink_media (db : Db) (c : String) :
    (adminDeleteLink db c).1.media = db.media := by
  by_cases hch : (db.links.filter (fun r => r.short_code = c)).length = 0 <;>
    simp [adminDeleteLink, hch]

theorem adminDeleteMedia_links (db : Db) (c : String) :
    (adminDeleteMedia db c).1.links = db.links := by
  by_cases hch : (db.media.filter (fun r => r.short_code = c)).length = 0 <;>
    simp [adminDeleteMedia, hch]

theorem postLink_links_congr {db₁ db₂ : Db} (h : db₁.links = db₂.links)
    (i : LinkReq) :
    linkCreateOut db₁ i = linkCreateOut db₂ i ∧
    (linkCreateStep db₁ i).links = (linkCreateStep db₂ i).links := by
  have hused : linkCodeUsed db₁ = linkCodeUsed db₂ := by
    funext c
    unfold linkCodeUsed
    rw [h]
  by_cases hu : i.url = ""
  · exact ⟨by simp [linkCreateOut, postLink, hu],
      by simp [linkCreateStep, postLink, hu, h]⟩
  · cases hp : pickFresh (linkCodeUsed db₂) i.draws with
    | none =>
      have hp₁ : pickFresh (linkCodeUsed db₁) i.draws = none := by
        rw [hused]; exact hp
      exact ⟨by simp [linkCreateOut, postLink, hu, hp, hp₁],
        by simp [linkCreateStep, postLink, hu, hp, hp₁, h]⟩
    | some code =>
      have hp₁ : pickFresh (linkCodeUsed db₁) i.draws = some code := by
        rw [hused]; exact hp
      constructor
      · unfold linkCreateOut
        rw [postLink_success hu hp₁, postLink_success hu hp]
      · unfold linkCreateStep
        rw [postLink_success hu hp₁, postLink_success hu hp]
        show db₁.links ++ _ = db₂.links ++ _
        rw [h]

theorem postMedia_media_congr {db₁ db₂ : Db} (h : db₁.media = db₂.media)
    (i : MediaReq) :
    mediaCreateOut db₁ i = mediaCreateOut db₂ i ∧
    (mediaCreateStep db₁ i).media = (mediaCreateStep db₂ i).media := by
  have hused : mediaCodeUsed db₁ = mediaCodeUsed db₂ := by
    funext c
    unfold mediaCodeUsed
    rw [h]
  by_cases hu : i.ipfsHash = "" ∨ i.fileName = "" ∨ i.fileType = "" ∨ i.fileSize = 0
  · exact ⟨by simp [mediaCreateOut, postMedia, hu],
      by simp [mediaCreateStep, postMedia, hu, h]⟩
  · cases hp : pickFresh (mediaCodeUsed db₂) i.draws with
    | none =>
      have hp₁ : pickFresh (mediaCodeUsed db₁) i.draws = none := by
        rw [hused]; exact hp
      exact ⟨by simp [mediaCreateOut, postMedia, hu, hp, hp₁],
        by simp [mediaCreateStep, postMedia, hu, hp, hp₁, h]⟩
    | some code =>
      have hp₁ : pickFresh (mediaCodeUsed db₁) i.draws = some code := by
        rw [hused]; exact hp
      constructor
      · unfold mediaCreateOut
        rw [postMedia_success hu hp₁, postMedia_success hu hp]
      · unfold mediaCreateStep
        rw [postMedia_success hu hp₁, postMedia_success hu hp]
        show db₁.media ++ _ = db₂.media ++ _
        rw [h]

/-- C9: the link and media namespaces are independent keyspaces.  A link
creation never changes the media table (and the link-side read and delete
operations never change it either), a media creation never changes the
links table, each creation's outcome and its effect on its own table
depend only on that table (the other namespace's keys are never read), and
a successful link creation under code `c` leaves the media namespace's
occupancy of `c` exactly as it was — so the same 6-character string can be
live in both namespaces at once without collision, retry, or error. -/
theorem linkio_C9_namespaces_independent :
    (∀ (db : Db) (i : LinkReq), (linkCreateStep db i).media = db.media) ∧
    (∀ (db : Db) (i : MediaReq), (mediaCreateStep db i).links = db.links) ∧
    (∀ (db : Db) (c : String),
      (redirectHandler db c).1.media = db.media ∧
      (adminDeleteLink db c).1.media = db.media ∧
      (mediaViewHandler db c).1.links = db.links ∧
      (adminDeleteMedia db c).1.links = db.links) ∧
    (∀ (db₁ db₂ : Db), db₁.links = db₂.links → ∀ i : LinkReq,
      linkCreateOut db₁ i = linkCreateOut db₂ i ∧
      (linkCreateStep db₁ i).links = (linkCreateStep db₂ i).links) ∧
    (∀ (db₁ db₂ : Db), db₁.media = db₂.media → ∀ i : MediaReq,
      mediaCreateOut db₁ i = mediaCreateOut db₂ i ∧
      (mediaCreateStep db₁ i).media = (mediaCreateStep db₂ i).media) ∧
    (∀ (db : Db) (i : LinkReq) (c : String), linkCreateOut db i = some c →
      linkCodeUsed (linkCreateStep db i) c = true ∧
      mediaCodeUsed (linkCreateStep db i) c = mediaCodeUsed db c) ∧
    (∀ (db : Db) (i : MediaReq) (c : String), mediaCreateOut db i = some c →
      mediaCodeUsed (mediaCreateStep db i) c = true ∧
      linkCodeUsed (mediaCreateStep db i) c = linkCodeUsed db c) := by
  refine ⟨linkCreateStep_media, mediaCreateStep_links,
    fun db c => ⟨redirectHandler_media db c, adminDeleteLink_media db c,
      mediaViewHandler_links db c, adminDeleteMedia_links db c⟩,
    fun db₁ db₂ h i => postLink_links_congr h i,
    fun db₁ db₂ h i => postMedia_media_congr h i,
    fun db i c h => ⟨linkCreateStep_used h, ?_⟩,
    fun db i c h => ⟨mediaCreateStep_used h, ?_⟩⟩
  · unfold mediaCodeUsed
    rw [linkCreateStep_media]
  · unfold linkCodeUsed
    rw [mediaCreateStep_links]

/-! ## Counter semantics (C2) -/

theorem clicksOf_links_eq {db db' : Db} (hl : db'.links = db.links) (c : String) :
    clicksOf db' c = clicksOf db c := by
  unfold clicksOf
  rw [hl]

theorem viewsOf_media_eq {db db' : Db} (hl : db'.media = db.media) (c : String) :
    viewsOf db' c = viewsOf db c := by
  unfold viewsOf
  rw [hl]

theorem clicksOf_links_append {db : Db} {c : String} {n : Nat}
    (h : clicksOf db c = some n) {db' : Db} {rows : List LinkRow}
    (hl : db'.links = db.links ++ rows) : clicksOf db' c = some n := by
  unfold clicksOf at h ⊢
  obtain ⟨r, hr, hn⟩ := Option.map_eq_some'.mp h
  rw [hl, find?_append_some hr]
  simp [hn]

theorem viewsOf_media_append {db : Db} {c : String} {n : Nat}
    (h : viewsOf db c = some n) {db' : Db} {rows : List MediaRow}
    (hl : db'.media = db.media ++ rows) : viewsOf db' c = some n := by
  unfold viewsOf at h ⊢
  obtain ⟨r, hr, hn⟩ := Option.map_eq_some'.mp h
  rw [hl, find?_append_some hr]
  simp [hn]

theorem linkCreateStep_links_ext (db : Db) (i : LinkReq) :
    ∃ rows : List LinkRow, (linkCreateStep db i).links = db.links ++ rows := by
  unfold linkCreateStep
  by_cases hu : i.url = ""
  · exact ⟨[], by simp [postLink, hu]⟩
  · cases hp : pickFresh (linkCodeUsed db) i.draws with
    | none => exact ⟨[], by simp [postLink, hu, hp]⟩
    | some code => exact ⟨[_], by rw [postLink_success hu hp]⟩

theorem mediaCreateStep_media_ext (db : Db) (i : MediaReq) :
    ∃ rows : List MediaRow, (mediaCreateStep db i).media = db.media ++ rows := by
  unfold mediaCreateStep
  by_cases hu : i.ipfsHash = "" ∨ i.fileName = "" ∨ i.fileType = "" ∨ i.fileSize = 0
  · exact ⟨[], by simp [postMedia, hu]⟩
  · cases hp : pickFresh (mediaCodeUsed db) i.draws with
    | none => exact ⟨[], by simp [postMedia, hu, hp]⟩
    | some code => exact ⟨[_], by rw [postMedia_success hu hp]⟩

theorem step_conclude_ne {op : Op} {c : String} {n n' : Nat}
    (hne : op = Op.redirect c → False) (heq : n' = n) :
    (op = Op.redirect c → n' = n + 1) ∧ (op ≠ Op.redirect c → n' = n) ∧ n ≤ n' :=
  ⟨fun hop => absurd hop hne, fun _ => heq, by rw [heq]⟩

theorem step_conclude_ne_view {op : Op} {c : String} {n n' : Nat}
    (hne : op = Op.mediaView c → False) (heq : n' = n) :
    (op = Op.mediaView c → n' = n + 1) ∧ (op ≠ Op.mediaView c → n' = n) ∧ n ≤ n' :=
  ⟨fun hop => absurd hop hne, fun _ => heq, by rw [heq]⟩

theorem clicks_step (db : Db) (op : Op) (c : String) (n n' : Nat)
    (h : clicksOf db c = some n) (h' : clicksOf (applyOp db op) c = some n') :
    (op = Op.redirect c → n' = n + 1) ∧ (op ≠ Op.redirect c → n' = n) ∧ n ≤ n' := by
  cases op with
  | createLink draws url creator now =>
    obtain ⟨rows, hl⟩ := linkCreateStep_links_ext db ⟨draws, url, creator, now⟩
    have hsn : clicksOf (applyOp db (Op.createLink draws url creator now)) c = some n :=
      clicksOf_links_append h hl
    exact step_conclude_ne (fun hop => Op.noConfusion hop)
      (Option.some.inj (h'.symm.trans hsn))
  | createMedia draws ihash fn ft fs creator now =>
    have hsn : clicksOf (applyOp db (Op.createMedia draws ihash fn ft fs creator now)) c = some n := by
      show clicksOf (mediaCreateStep db ⟨draws, ihash, fn, ft, fs, creator, now⟩) c = some n
      rw [clicksOf_links_eq (mediaCreateStep_links db ⟨draws, ihash, fn, ft, fs, creator, now⟩)]
      exact h
    exact step_conclude_ne (fun hop => Op.noConfusion hop)
      (Option.some.inj (h'.symm.trans hsn))
  | peekLink c' =>
    have hsn : clicksOf (applyOp db (Op.peekLink c')) c = some n := by
      show clicksOf (getLinkHandler db c').1 c = some n
      rw [getLinkHandler_state]
      exact h
    exact step_conclude_ne (fun hop => Op.noConfusion hop)
      (Option.some.inj (h'.symm.trans hsn))
  | peekMedia c' =>
    have hsn : clicksOf (applyOp db (Op.peekMedia c')) c = some n := by
      show clicksOf (getMediaHandler db c').1 c = some n
      rw [getMediaHandler_state]
      exact h
    exact step_conclude_ne (fun hop => Op.noConfusion hop)
      (Option.some.inj (h'.symm.trans hsn))
  | listUserLinks w =>
    exact step_conclude_ne (fun hop => Op.noConfusion hop)
      (Option.some.inj (h'.symm.trans h))
  | listUserMedia w =>
    exact step_conclude_ne (fun hop => Op.noConfusion hop)
      (Option.some.inj (h'.symm.trans h))
  | stats =>
    exact step_conclude_ne (fun hop => Op.noConfusion hop)
      (Option.some.inj (h'.symm.trans h))
  | mediaView c' =>
    have hsn : clicksOf (applyOp db (Op.mediaView c')) c = some n := by
      show clicksOf (mediaViewHandler db c').1 c = some n
      rw [clicksOf_links_eq (mediaViewHandler_links db c')]
      exact h
    exact step_conclude_ne (fun hop => Op.noConfusion hop)
      (Option.some.inj (h'.symm.trans hsn))
  | deleteMedia c' =>
    have hsn : clicksOf (applyOp db (Op.deleteMedia c')) c = some n := by
      show clicksOf (adminDeleteMedia db c').1 c = some n
      rw [clicksOf_links_eq (adminDeleteMedia_links db c')]
      exact h
    exact step_conclude_ne (fun hop => Op.noConfusion hop)
      (Option.some.inj (h'.symm.trans hsn))
  | deleteLink c' =>
    by_cases hch : (db.links.filter (fun r => r.short_code = c')).length = 0
    · have hstate : (adminDeleteLink db c').1 = db := by
        simp [adminDeleteLink, hch]
      have hsn : clicksOf (applyOp db (Op.deleteLink c')) c = some n := by
        show clicksOf (adminDeleteLink db c').1 c = some n
        rw [hstate]
        exact h
      exact step_conclude_ne (fun hop => Op.noConfusion hop)
        (Option.some.inj (h'.symm.trans hsn))
    · have hflt : (adminDeleteLink db c').1.links =
          db.links.filter (fun r => ¬ r.short_code = c') := by
        simp [adminDeleteLink, hch]
      by_cases hcc : c = c'
      · exfalso
        subst hcc
        have hnone : (db.links.filter (fun r => ¬ r.short_code = c)).find?
            (fun r => r.short_code = c) = none := by
          rw [List.find?_eq_none]
          intro x hx
          have hxq := (List.mem_filter.mp hx).2
          simp only [decide_not, Bool.not_eq_true'] at hxq
          simp [hxq]
        have h'' := h'
        show False
        unfold clicksOf at h''
        rw [show (applyOp db (Op.deleteLink c)).links =
            db.links.filter (fun r => ¬ r.short_code = c) from hflt, hnone] at h''
        cases h''
      · have hpres : (db.links.filter (fun r => ¬ r.short_code = c')).find?
            (fun r => r.short_code = c) = db.links.find? (fun r => r.short_code = c) := by
          apply find?_filter_of_imp
          intro a ha
          simp only [decide_eq_true_eq] at ha
          simp only [decide_not, Bool.not_eq_true', Bool.not_eq_true]
          simp [ha]
          exact hcc
        have hsn : clicksOf (applyOp db (Op.deleteLink c')) c = some n := by
          show clicksOf (adminDeleteLink db c').1 c = some n
          unfold clicksOf at h ⊢
          rw [hflt, hpres]
          exact h
        exact step_conclude_ne (fun hop => Op.noConfusion hop)
          (Option.some.inj (h'.symm.trans hsn))
  | redirect c' =>
    rcases hf : db.links.find? (fun r => r.short_code = c') with _ | l
    · have hstate : (redirectHandler db c').1 = db := by
        simp [redirectHandler, hf]
      have hsn : clicksOf (applyOp db (Op.redirect c')) c = some n := by
        show clicksOf (redirectHandler db c').1 c = some n
        rw [hstate]
        exact h
      have heq : n' = n := Option.some.inj (h'.symm.trans hsn)
      refine ⟨fun hop => ?_, fun _ => heq, by rw [heq]⟩
      exfalso
      injection hop with hcc
      subst hcc
      unfold clicksOf at h
      rw [hf] at h
      cases h
    · have hmap : (redirectHandler db c').1.links = db.links.map
          (fun r => if r.short_code = c' then { r with clicks := r.clicks + 1 } else r) := by
        simp [redirectHandler, hf]
      have hpres : ∀ r : LinkRow,
          (fun x : LinkRow => decide (x.short_code = c))
            ((fun x : LinkRow =>
              if x.short_code = c' then { x with clicks := x.clicks + 1 } else x) r) =
          (fun x : LinkRow => decide (x.short_code = c)) r := by
        intro r
        by_cases hrc : r.short_code = c' <;> simp [hrc]
      obtain ⟨r, hr, hn⟩ := Option.map_eq_some'.mp h
      have hrc : r.short_code = c := by simpa using List.find?_some hr
      have h'' : clicksOf (applyOp db (Op.redirect c')) c =
          some ((if r.short_code = c' then { r with clicks := r.clicks + 1 } else r).clicks) := by
        show clicksOf (redirectHandler db c').1 c = _
        unfold clicksOf
        rw [hmap, find?_map_of_pres hpres, hr]
        rfl
      have hval : n' = (if r.short_code = c' then { r with clicks := r.clicks + 1 } else r).clicks :=
        Option.some.inj (h'.symm.trans h'')
      by_cases hcc : c' = c
      · subst hcc
        rw [if_pos hrc] at hval
        exact ⟨fun _ => by rw [hval, hn], fun hne => absurd rfl hne,
          by rw [hval, hn]; exact Nat.le_succ n⟩
      · have hne' : ¬ r.short_code = c' := by
          rw [hrc]; exact fun hh => hcc hh.symm
        rw [if_neg hne'] at hval
        refine ⟨fun hop => ?_, fun _ => by rw [hval, hn], by rw [hval, hn]⟩
        injection hop with h1
        exact absurd h1 hcc

theorem views_step (db : Db) (op : Op) (c : String) (n n' : Nat)
    (h : viewsOf db c = some n) (h' : viewsOf (applyOp db op) c = some n') :
    (op = Op.mediaView c → n' = n + 1) ∧ (op ≠ Op.mediaView c → n' = n) ∧ n ≤ n' := by
  cases op with
  | createMedia draws ihash fn ft fs creator now =>
    obtain ⟨rows, hl⟩ := mediaCreateStep_media_ext db ⟨draws, ihash, fn, ft, fs, creator, now⟩
    have hsn : viewsOf (applyOp db (Op.createMedia draws ihash fn ft fs creator now)) c = some n :=
      viewsOf_media_append h hl
    exact step_conclude_ne_view (fun hop => Op.noConfusion hop)
      (Option.some.inj (h'.symm.trans hsn))
  | createLink draws url creator now =>
    have hsn : viewsOf (applyOp db (Op.createLink draws url creator now)) c = some n := by
      show viewsOf (linkCreateStep db ⟨draws, url, creator, now⟩) c = some n
      rw [viewsOf_media_eq (linkCreateStep_media db ⟨draws, url, creator, now⟩)]
      exact h
    exact step_conclude_ne_view (fun hop => Op.noConfusion hop)
      (Option.some.inj (h'.symm.trans hsn))
  | peekLink c' =>
    have hsn : viewsOf (applyOp db (Op.peekLink c')) c = some n := by
      show viewsOf (getLinkHandler db c').1 c = some n
      rw [getLinkHandler_state]
      exact h
    exact step_conclude_ne_view (fun hop => Op.noConfusion hop)
      (Option.some.inj (h'.symm.trans hsn))
  | peekMedia c' =>
    have hsn : viewsOf (applyOp db (Op.peekMedia c')) c = some n := by
      show viewsOf (getMediaHandler db c').1 c = some n
      rw [getMediaHandler_state]
      exact h
    exact step_conclude_ne_view (fun hop => Op.noConfusion hop)
      (Option.some.inj (h'.symm.trans hsn))
  | listUserLinks w =>
    exact step_conclude_ne_view (fun hop => Op.noConfusion hop)
      (Option.some.inj (h'.symm.trans h))
  | listUserMedia w =>
    exact step_conclude_ne_view (fun hop => Op.noConfusion hop)
      (Option.some.inj (h'.symm.trans h))
  | stats =>
    exact step_conclude_ne_view (fun hop => Op.noConfusion hop)
      (Option.some.inj (h'.symm.trans h))
  | redirect c' =>
    have hsn : viewsOf (applyOp db (Op.redirect c')) c = some n := by
      show viewsOf (redirectHandler db c').1 c = some n
      rw [viewsOf_media_eq (redirectHandler_media db c')]
      exact h
    exact step_conclude_ne_view (fun hop => Op.noConfusion hop)
      (Option.some.inj (h'.symm.trans hsn))
  | deleteLink c' =>
    have hsn : viewsOf (applyOp db (Op.deleteLink c')) c = some n := by
      show viewsOf (adminDeleteLink db c').1 c = some n
      rw [viewsOf_media_eq (adminDeleteLink_media db c')]
      exact h
    exact step_conclude_ne_view (fun hop => Op.noConfusion hop)
      (Option.some.inj (h'.symm.trans hsn))
  | deleteMedia c' =>
    by_cases hch : (db.media.filter (fun r => r.short_code = c')).length = 0
    · have hstate : (adminDeleteMedia db c').1 = db := by
        simp [adminDeleteMedia, hch]
      have hsn : viewsOf (applyOp db (Op.deleteMedia c')) c = some n := by
        show viewsOf (adminDeleteMedia db c').1 c = some n
        rw [hstate]
        exact h
      exact step_conclude_ne_view (fun hop => Op.noConfusion hop)
        (Option.some.inj (h'.symm.trans hsn))
    · have hflt : (adminDeleteMedia db c').1.media =
          db.media.filter (fun r => ¬ r.short_code = c') := by
        simp [adminDeleteMedia, hch]
      by_cases hcc : c = c'
      · exfalso
        subst hcc
        have hnone : (db.media.filter (fun r => ¬ r.short_code = c)).find?
            (fun r => r.short_code = c) = none := by
          rw [List.find?_eq_none]
          intro x hx
          have hxq := (List.mem_filter.mp hx).2
          simp only [decide_not, Bool.not_eq_true'] at hxq
          simp [hxq]
        have h'' := h'
        show False
        unfold viewsOf at h''
        rw [show (applyOp db (Op.deleteMedia c)).media =
            db.media.filter (fun r => ¬ r.short_code = c) from hflt, hnone] at h''
        cases h''
      · have hpres : (db.media.filter (fun r => ¬ r.short_code = c')).find?
            (fun r => r.short_code = c) = db.media.find? (fun r => r.short_code = c) := by
          apply find?_filter_of_imp
          intro a ha
          simp only [decide_eq_true_eq] at ha
          simp only [decide_not, Bool.not_eq_true', Bool.not_eq_true]
          simp [ha]
          exact hcc
        have hsn : viewsOf (applyOp db (Op.deleteMedia c')) c = some n := by
          show viewsOf (adminDeleteMedia db c').1 c = some n
          unfold viewsOf at h ⊢
          rw [hflt, hpres]
          exact h
        exact step_conclude_ne_view (fun hop => Op.noConfusion hop)
          (Option.some.inj (h'.symm.trans hsn))
  | mediaView c' =>
    rcases hf : db.media.find? (fun r => r.short_code = c') with _ | m
    · have hstate : (mediaViewHandler db c').1 = db := by
        simp [mediaViewHandler, hf]
      have hsn : viewsOf (applyOp db (Op.mediaView c')) c = some n := by
        show viewsOf (mediaViewHandler db c').1 c = some n
        rw [hstate]
        exact h
      have heq : n' = n := Option.some.inj (h'.symm.trans hsn)
      refine ⟨fun hop => ?_, fun _ => heq, by rw [heq]⟩
      exfalso
      injection hop with hcc
      subst hcc
      unfold viewsOf at h
      rw [hf] at h
      cases h
    · have hmap : (mediaViewHandler db c').1.media = db.media.map
          (fun r => if r.short_code = c' then { r with views := r.views + 1 } else r) := by
        simp [mediaViewHandler, hf]
      have hpres : ∀ r : MediaRow,
          (fun x : MediaRow => decide (x.short_code = c))
            ((fun x : MediaRow =>
              if x.short_code = c' then { x with views := x.views + 1 } else x) r) =
          (fun x : MediaRow => decide (x.short_code = c)) r := by
        intro r
        by_cases hrc : r.short_code = c' <;> simp [hrc]
      obtain ⟨r, hr, hn⟩ := Option.map_eq_some'.mp h
      have hrc : r.short_code = c := by simpa using List.find?_some hr
      have h'' : viewsOf (applyOp db (Op.mediaView c')) c =
          some ((if r.short_code = c' then { r with views := r.views + 1 } else r).views) := by
        show viewsOf (mediaViewHandler db c').1 c = _
        unfold viewsOf
        rw [hmap, find?_map_of_pres hpres, hr]
        rfl
      have hval : n' = (if r.short_code = c' then { r with views := r.views + 1 } else r).views :=
        Option.some.inj (h'.symm.trans h'')
      by_cases hcc : c' = c
      · subst hcc
        rw [if_pos hrc] at hval
        exact ⟨fun _ => by rw [hval, hn], fun hne => absurd rfl hne,
          by rw [hval, hn]; exact Nat.le_succ n⟩
      · have hne' : ¬ r.short_code = c' := by
          rw [hrc]; exact fun hh => hcc hh.symm
        rw [if_neg hne'] at hval
        refine ⟨fun hop => ?_, fun _ => by rw [hval, hn], by rw [hval, hn]⟩
        injection hop with h1
        exact absurd h1 hcc

theorem linkAlwaysPresent_head {c : String} {db : Db} {ops : List Op}
    (h : linkAlwaysPresent c db ops) : linkCodeUsed db c = true := by
  cases ops with
  | nil => exact h
  | cons o os => exact h.1

theorem mediaAlwaysPresent_head {c : String} {db : Db} {ops : List Op}
    (h : mediaAlwaysPresent c db ops) : mediaCodeUsed db c = true := by
  cases ops with
  | nil => exact h
  | cons o os => exact h.1

theorem clicksOf_isSome_of_used {db : Db} {c : String}
    (h : linkCodeUsed db c = true) : ∃ m, clicksOf db c = some m := by
  unfold linkCodeUsed at h
  rw [any_iff_find?_isSome] at h
  obtain ⟨r, hr⟩ := Option.isSome_iff_exists.mp h
  exact ⟨r.clicks, by unfold clicksOf; rw [hr]; rfl⟩

theorem viewsOf_isSome_of_used {db : Db} {c : String}
    (h : mediaCodeUsed db c = true) : ∃ m, viewsOf db c = some m := by
  unfold mediaCodeUsed at h
  rw [any_iff_find?_isSome] at h
  obtain ⟨r, hr⟩ := Option.isSome_iff_exists.mp h
  exact ⟨r.views, by unfold viewsOf; rw [hr]; rfl⟩

theorem clicks_trace :
    ∀ (ops : List Op) (db : Db) (c : String) (n n' : Nat),
      linkAlwaysPresent c db ops → clicksOf db c = some n →
      clicksOf (runOps db ops) c = some n' → n ≤ n' := by
  intro ops
  induction ops with
  | nil =>
    intro db c n n' _ h h'
    exact Nat.le_of_eq (Option.some.inj (h.symm.trans h'))
  | cons o os ih =>
    intro db c n n' hall h h'
    have htail : linkAlwaysPresent c (applyOp db o) os := hall.2
    obtain ⟨m, hm⟩ := clicksOf_isSome_of_used (linkAlwaysPresent_head htail)
    have hle : n ≤ m := (clicks_step db o c n m h hm).2.2
    have hrun : runOps db (o :: os) = runOps (applyOp db o) os := rfl
    rw [hrun] at h'
    exact Nat.le_trans hle (ih (applyOp db o) c m n' htail hm h')

theorem views_trace :
    ∀ (ops : List Op) (db : Db) (c : String) (n n' : Nat),
      mediaAlwaysPresent c db ops → viewsOf db c = some n →
      viewsOf (runOps db ops) c = some n' → n ≤ n' := by
  intro ops
  induction ops with
  | nil =>
    intro db c n n' _ h h'
    exact Nat.le_of_eq (Option.some.inj (h.symm.trans h'))
  | cons o os ih =>
    intro db c n n' hall h h'
    have htail : mediaAlwaysPresent c (applyOp db o) os := hall.2
    obtain ⟨m, hm⟩ := viewsOf_isSome_of_used (mediaAlwaysPresent_head htail)
    have hle : n ≤ m := (views_step db o c n m h hm).2.2
    have hrun : runOps db (o :: os) = runOps (applyOp db o) os := rfl
    rw [hrun] at h'
    exact Nat.le_trans hle (ih (applyOp db o) c m n' htail hm h')

theorem getLink_spec {s : CState} {c : String} {l : LinkData}
    (h : s.links c = some l) :
    (getLink s c).1.links c = some { l with clicks := l.clicks + 1 } ∧
    (getLink s c).2 = CallResult.ok l.originalUrl ∧
    (∀ c', c' ≠ c → (getLink s c).1.links c' = s.links c') ∧
    (getLink s c).1.media = s.media := by
  unfold getLink
  rw [h]
  exact ⟨by simp, rfl, fun c' hc' => by simp [hc'], rfl⟩

theorem getMedia_spec {s : CState} {c : String} {m : MediaData}
    (h : s.media c = some m) :
    (getMedia s c).1.media c = some { m with views := m.views + 1 } ∧
    (getMedia s c).2 = CallResult.ok (m.ipfsHash, m.fileName, m.fileType, m.fileSize) ∧
    (∀ c', c' ≠ c → (getMedia s c).1.media c' = s.media c') ∧
    (getMedia s c).1.links = s.links := by
  unfold getMedia
  rw [h]
  exact ⟨by simp, rfl, fun c' hc' => by simp [hc'], rfl⟩

/-- C2: counters only move through counting resolves, by exactly 1.  In
the service: for one request, if a link record with code `c` exists before
and after, its `clicks` went up by exactly 1 when the request was
`GET /api/links/c/redirect` and is unchanged for every other request (and
symmetrically `views` with `GET /api/media/c/view`); over any request
sequence during which the record stays present, the counter never
decreases.  In the contract: `getLink`/`getMedia` on an existing code add
exactly 1 to that record's counter and leave every other slot alone. -/
theorem linkio_C2_counter_increment :
    (∀ (db : Db) (op : Op) (c : String) (n n' : Nat),
      clicksOf db c = some n → clicksOf (applyOp db op) c = some n' →
      (op = Op.redirect c → n' = n + 1) ∧ (op ≠ Op.redirect c → n' = n) ∧ n ≤ n') ∧
    (∀ (db : Db) (op : Op) (c : String) (n n' : Nat),
      viewsOf db c = some n → viewsOf (applyOp db op) c = some n' →
      (op = Op.mediaView c → n' = n + 1) ∧ (op ≠ Op.mediaView c → n' = n) ∧ n ≤ n') ∧
    (∀ (ops : List Op) (db : Db) (c : String) (n n' : Nat),
      linkAlwaysPresent c db ops → clicksOf db c = some n →
      clicksOf (runOps db ops) c = some n' → n ≤ n') ∧
    (∀ (ops : List Op) (db : Db) (c : String) (n n' : Nat),
      mediaAlwaysPresent c db ops → viewsOf db c = some n →
      viewsOf (runOps db ops) c = some n' → n ≤ n') ∧
    (∀ (s : CState) (c : String) (l : LinkData), s.links c = some l →
      (getLink s c).1.links c = some { l with clicks := l.clicks + 1 } ∧
      (getLink s c).2 = CallResult.ok l.originalUrl ∧
      ∀ c', c' ≠ c → (getLink s c).1.links c' = s.links c') ∧
    (∀ (s : CState) (c : String) (m : MediaData), s.media c = some m →
      (getMedia s c).1.media c = some { m with views := m.views + 1 } ∧
      ∀ c', c' ≠ c → (getMedia s c).1.media c' = s.media c') :=
  ⟨clicks_step, views_step, clicks_trace, views_trace,
    fun _ _ _ h => ⟨(getLink_spec h).1, (getLink_spec h).2.1, (getLink_spec h).2.2.1⟩,
    fun _ _ _ h => ⟨(getMedia_spec h).1, (getMedia_spec h).2.2.1⟩⟩

/-- C2 witness: on the one-row database, the counting redirect takes the
record's clicks from 0 to 1 = 0 + 1. -/
theorem linkio_C2_counter_increment_witness : (1 : Nat) = 0 + 1 :=
  (linkio_C2_counter_increment.1 cex4db1 (Op.redirect "aaaaaa") "aaaaaa" 0 1
    (by decide) (by decide)).1 rfl

/-- C9 witness: starting from a database whose media table already holds
the code `"aaaaaa"`, a link creation that draws the same code succeeds,
after which the code is live in both namespaces simultaneously. -/
theorem linkio_C9_namespaces_independent_witness :
    linkCodeUsed (linkCreateStep cex9db req9) "aaaaaa" = true ∧
    mediaCodeUsed (linkCreateStep cex9db req9) "aaaaaa" =
      mediaCodeUsed cex9db "aaaaaa" :=
  linkio_C9_namespaces_independent.2.2.2.2.2.1 cex9db req9 "aaaaaa" (by decide)

/-! ## Total counts (C4) -/

theorem adminDeleteLink_shrinks {db : Db} {c : String}
    (h : (adminDeleteLink db c).2.isOk = true) :
    (adminDeleteLink db c).1.links.length < db.links.length := by
  by_cases hch : (db.links.filter (fun r => r.short_code = c)).length = 0
  · simp [adminDeleteLink, hch, ApiResult.isOk] at h
  · have hlinks : (adminDeleteLink db c).1.links =
        db.links.filter (fun r => ¬ r.short_code = c) := by
      simp [adminDeleteLink, hch]
    rw [hlinks]
    apply List.length_filter_lt_length_iff_exists.mpr
    obtain ⟨x, hx⟩ := List.exists_mem_of_length_pos (Nat.pos_of_ne_zero hch)
    obtain ⟨hxl, hxc⟩ := List.mem_filter.mp hx
    refine ⟨x, hxl, ?_⟩
    simp only [decide_eq_true_eq] at hxc
    simp [hxc]

theorem adminDeleteMedia_shrinks {db : Db} {c : String}
    (h : (adminDeleteMedia db c).2.isOk = true) :
    (adminDeleteMedia db c).1.media.length < db.media.length := by
  by_cases hch : (db.media.filter (fun r => r.short_code = c)).length = 0
  · simp [adminDeleteMedia, hch, ApiResult.isOk] at h
  · have hmedia : (adminDeleteMedia db c).1.media =
        db.media.filter (fun r => ¬ r.short_code = c) := by
      simp [adminDeleteMedia, hch]
    rw [hmedia]
    apply List.length_filter_lt_length_iff_exists.mpr
    obtain ⟨x, hx⟩ := List.exists_mem_of_length_pos (Nat.pos_of_ne_zero hch)
    obtain ⟨hxl, hxc⟩ := List.mem_filter.mp hx
    refine ⟨x, hxl, ?_⟩
    simp only [decide_eq_true_eq] at hxc
    simp [hxc]

theorem createShortLink_counters {env : Env} {fuel : Nat} {s : CState}
    {url : String} {x : CState × CallResult String}
    (h : createShortLink env fuel s url = some x) :
    getTotalLinks s ≤ getTotalLinks x.1 ∧ getTotalMedia x.1 = getTotalMedia s := by
  unfold createShortLink at h
  by_cases h1 : url.utf8ByteSize = 0
  · rw [if_pos h1] at h
    cases h
    exact ⟨Nat.le_refl _, rfl⟩
  · rw [if_neg h1] at h
    by_cases h2 : 2048 < url.utf8ByteSize
    · rw [if_pos h2] at h
      cases h
      exact ⟨Nat.le_refl _, rfl⟩
    · rw [if_neg h2] at h
      cases hg : genLoopLink env fuel s with
      | none => rw [hg] at h; cases h
      | some cs =>
        obtain ⟨code, s₁⟩ := cs
        rw [hg] at h
        cases h
        obtain ⟨-, -, -, -, hmc, hlc, -⟩ := genLoopLink_spec hg
        exact ⟨hlc, hmc⟩

theorem uploadMedia_counters {env : Env} {fuel : Nat} {s : CState}
    {ipfsHash fileName fileType : String} {fileSize : Nat}
    {x : CState × CallResult String}
    (h : uploadMedia env fuel s ipfsHash fileName fileType fileSize = some x) :
    getTotalMedia s ≤ getTotalMedia x.1 ∧ getTotalLinks x.1 = getTotalLinks s := by
  unfold uploadMedia at h
  by_cases h1 : ipfsHash.utf8ByteSize = 0
  · rw [if_pos h1] at h
    cases h
    exact ⟨Nat.le_refl _, rfl⟩
  · rw [if_neg h1] at h
    by_cases h2 : fileName.utf8ByteSize = 0
    · rw [if_pos h2] at h
      cases h
      exact ⟨Nat.le_refl _, rfl⟩
    · rw [if_neg h2] at h
      cases hg : genLoopMedia env fuel s with
      | none => rw [hg] at h; cases h
      | some cs =>
        obtain ⟨code, s₁⟩ := cs
        rw [hg] at h
        cases h
        obtain ⟨-, -, -, -, hlc, hmc, -⟩ := genLoopMedia_spec hg
        exact ⟨hmc, hlc⟩

/-- C4 counterexample: the claim says the stats totals equal the number of
records ever created and never decrease, even across administrative
deletions.  In the service, `GET /api/stats` runs `SELECT COUNT(*)`: after
one link is created and then deleted through the admin route, totalLinks
drops from 1 back to 0 (and 0 is not the number of links ever created,
which is 1). -/
theorem linkio_C4_counterexample :
    statsHandler cex4db1 = (1, 0) ∧ statsHandler cex4db2 = (0, 0) ∧
    (statsHandler cex4db2).1 < (statsHandler cex4db1).1 := by
  decide

/-- C4 amended: the service's stats totals equal the number of records
currently stored in each namespace, so a successful administrative
deletion strictly decreases the corresponding total; the contract's
`getTotalLinks`/`getTotalMedia` counters never decrease — each creation
call only raises (or, on revert, keeps) its namespace's counter and leaves
the other one alone, and the counting resolves touch neither. -/
theorem linkio_C4_total_counts :
    (∀ db : Db, statsHandler db = (db.links.length, db.media.length)) ∧
    (∀ (db : Db) (c : String), (adminDeleteLink db c).2.isOk = true →
      (adminDeleteLink db c).1.links.length < db.links.length) ∧
    (∀ (db : Db) (c : String), (adminDeleteMedia db c).2.isOk = true →
      (adminDeleteMedia db c).1.media.length < db.media.length) ∧
    (∀ (env : Env) (fuel : Nat) (s : CState) (url : String)
        (x : CState × CallResult String),
      createShortLink env fuel s url = some x →
      getTotalLinks s ≤ getTotalLinks x.1 ∧ getTotalMedia x.1 = getTotalMedia s) ∧
    (∀ (env : Env) (fuel : Nat) (s : CState)
        (ipfsHash fileName fileType : String) (fileSize : Nat)
        (x : CState × CallResult String),
      uploadMedia env fuel s ipfsHash fileName fileType fileSize = some x →
      getTotalMedia s ≤ getTotalMedia x.1 ∧ getTotalLinks x.1 = getTotalLinks s) ∧
    (∀ (s : CState) (c : String),
      getTotalLinks (getLink s c).1 = getTotalLinks s ∧
      getTotalMedia (getLink s c).1 = getTotalMedia s ∧
      getTotalLinks (getMedia s c).1 = getTotalLinks s ∧
      getTotalMedia (getMedia s c).1 = getTotalMedia s) := by
  refine ⟨fun db => rfl, fun db c h => adminDeleteLink_shrinks h,
    fun db c h => adminDeleteMedia_shrinks h,
    fun env fuel s url x h => createShortLink_counters h,
    fun env fuel s ih fn ft fs x h => uploadMedia_counters h,
    fun s c => ?_⟩
  refine ⟨?_, ?_, ?_, ?_⟩
  · unfold getLink
    rcases s.links c with _ | l <;> rfl
  · unfold getLink
    rcases s.links c with _ | l <;> rfl
  · unfold getMedia
    rcases s.media c with _ | m <;> rfl
  · unfold getMedia
    rcases s.media c with _ | m <;> rfl

/-- C4 witness: deleting the only link row shrinks the links table from
length 1 to length 0. -/
theorem linkio_C4_total_counts_witness :
    (adminDeleteLink cex4db1 "aaaaaa").1.links.length < cex4db1.links.length :=
  linkio_C4_total_counts.2.1 cex4db1 "aaaaaa" (by decide)

/-! ## Owner listing (C5) -/

theorem sortDescBy_perm {α : Type} (key : α → Nat) (l : List α) :
    (sortDescBy key l).Perm l :=
  List.perm_insertionSort _ l

theorem sortDescBy_sorted {α : Type} (key : α → Nat) (l : List α) :
    List.Sorted (fun a b => key b ≤ key a) (sortDescBy key l) := by
  haveI : IsTotal α (fun a b => key b ≤ key a) :=
    ⟨fun a b => Nat.le_total (key b) (key a)⟩
  haveI : IsTrans α (fun a b => key b ≤ key a) :=
    ⟨fun a b c hab hbc => Nat.le_trans hbc hab⟩
  exact List.sorted_insertionSort _ l

theorem userLinksRows_creator {db : Db} {w : String} {r : LinkRow}
    (h : r ∈ userLinksRows db w) : r.creator = w ∧ r ∈ db.links := by
  have h1 : r ∈ sortDescBy (fun r => r.created_at)
      (db.links.filter (fun r => r.creator = w)) :=
    (List.take_sublist 10 _).subset h
  have h2 : r ∈ db.links.filter (fun r => r.creator = w) :=
    (sortDescBy_perm _ _).mem_iff.mp h1
  obtain ⟨hl, hc⟩ := List.mem_filter.mp h2
  exact ⟨by simpa using hc, hl⟩

theorem userMediaRows_creator {db : Db} {w : String} {r : MediaRow}
    (h : r ∈ userMediaRows db w) : r.creator = w ∧ r ∈ db.media := by
  have h1 : r ∈ sortDescBy (fun r => r.created_at)
      (db.media.filter (fun r => r.creator = w)) :=
    (List.take_sublist 10 _).subset h
  have h2 : r ∈ db.media.filter (fun r => r.creator = w) :=
    (sortDescBy_perm _ _).mem_iff.mp h1
  obtain ⟨hl, hc⟩ := List.mem_filter.mp h2
  exact ⟨by simpa using hc, hl⟩

theorem createShortLink_userLinks {env : Env} {fuel : Nat} {s s' : CState}
    {url code : String}
    (h : createShortLink env fuel s url = some (s', .ok code)) :
    getUserLinks s' env.sender = getUserLinks s env.sender ++ [code] := by
  unfold createShortLink at h
  by_cases h1 : url.utf8ByteSize = 0
  · rw [if_pos h1] at h
    cases h
  · rw [if_neg h1] at h
    by_cases h2 : 2048 < url.utf8ByteSize
    · rw [if_pos h2] at h
      cases h
    · rw [if_neg h2] at h
      cases hg : genLoopLink env fuel s with
      | none => rw [hg] at h; cases h
      | some cs =>
        obtain ⟨code₁, s₁⟩ := cs
        rw [hg] at h
        cases h
        show (if env.sender = env.sender then s₁.userLinks env.sender ++ [code]
          else s₁.userLinks env.sender) = _
        rw [if_pos rfl, (genLoopLink_spec hg).2.2.1]
        rfl

theorem uploadMedia_userMedia {env : Env} {fuel : Nat} {s s' : CState}
    {ipfsHash fileName fileType : String} {fileSize : Nat} {code : String}
    (h : uploadMedia env fuel s ipfsHash fileName fileType fileSize = some (s', .ok code)) :
    getUserMedia s' env.sender = getUserMedia s env.sender ++ [code] := by
  unfold uploadMedia at h
  by_cases h1 : ipfsHash.utf8ByteSize = 0
  · rw [if_pos h1] at h
    cases h
  · rw [if_neg h1] at h
    by_cases h2 : fileName.utf8ByteSize = 0
    · rw [if_pos h2] at h
      cases h
    · rw [if_neg h2] at h
      cases hg : genLoopMedia env fuel s with
      | none => rw [hg] at h; cases h
      | some cs =>
        obtain ⟨code₁, s₁⟩ := cs
        rw [hg] at h
        cases h
        show (if env.sender = env.sender then s₁.userMedia env.sender ++ [code]
          else s₁.userMedia env.sender) = _
        rw [if_pos rfl, (genLoopMedia_spec hg).2.2.2.1]
        rfl

/-- C5 counterexample: the claim says listByOwner returns exactly the
records whose creator is the given owner, most recent first.  Two refuting
facts at concrete inputs: (a) the service route ends in `LIMIT 10`, so for
an owner with 11 records only 10 come back; (b) the contract's
`getUserLinks` returns the owner's codes in creation order — after two
creations at block times 1 and 2 the first listed code is the older one,
not the most recent. -/
theorem linkio_C5_counterexample :
    ((db11.links.filter (fun r => r.creator = "alice")).length = 11 ∧
      (userLinksRows db11 "alice").length = 10) ∧
    (getUserLinks cex5s2 "alice" = ["baaaaa", "caaaaa"] ∧
      (cex5s2.links "baaaaa").map (fun l => l.createdAt) = some 1 ∧
      (cex5s2.links "caaaaa").map (fun l => l.createdAt) = some 2) := by
  decide

/-- C5 amended: the service's user-listing routes return only records of
the requested namespace whose creator equals the given owner, sorted by
createdAt descending, but capped at the 10 most recent (`LIMIT 10`); the
contract's `getUserLinks`/`getUserMedia` instead return all of the owner's
codes in creation order (each successful creation appends its code at the
end). -/
theorem linkio_C5_list_by_owner :
    (∀ (db : Db) (w : String) (r : LinkRow), r ∈ userLinksRows db w →
      r.creator = w ∧ r ∈ db.links) ∧
    (∀ (db : Db) (w : String),
      List.Sorted (fun a b : LinkRow => b.created_at ≤ a.created_at)
        (userLinksRows db w)) ∧
    (∀ (db : Db) (w : String), (userLinksRows db w).length =
      min 10 (db.links.filter (fun r => r.creator = w)).length) ∧
    (∀ (db : Db) (w : String) (r : MediaRow), r ∈ userMediaRows db w →
      r.creator = w ∧ r ∈ db.media) ∧
    (∀ (db : Db) (w : String),
      List.Sorted (fun a b : MediaRow => b.created_at ≤ a.created_at)
        (userMediaRows db w)) ∧
    (∀ (db : Db) (w : String), (userMediaRows db w).length =
      min 10 (db.media.filter (fun r => r.creator = w)).length) ∧
    (∀ (env : Env) (fuel : Nat) (s s' : CState) (url code : String),
      createShortLink env fuel s url = some (s', .ok code) →
      getUserLinks s' env.sender = getUserLinks s env.sender ++ [code]) ∧
    (∀ (env : Env) (fuel : Nat) (s s' : CState)
        (ipfsHash fileName fileType : String) (fileSize : Nat) (code : String),
      uploadMedia env fuel s ipfsHash fileName fileType fileSize = some (s', .ok code) →
      getUserMedia s' env.sender = getUserMedia s env.sender ++ [code]) := by
  refine ⟨fun db w r h => userLinksRows_creator h, fun db w => ?_, fun db w => ?_,
    fun db w r h => userMediaRows_creator h, fun db w => ?_, fun db w => ?_,
    fun env fuel s s' url code h => createShortLink_userLinks h,
    fun env fuel s s' ih fn ft fs code h => uploadMedia_userMedia h⟩
  · exact (sortDescBy_sorted _ _).sublist (List.take_sublist 10 _)
  · show (List.take 10 _).length = _
    rw [List.length_take, (sortDescBy_perm (fun r : LinkRow => r.created_at) _).length_eq]
  · exact (sortDescBy_sorted _ _).sublist (List.take_sublist 10 _)
  · show (List.take 10 _).length = _
    rw [List.length_take, (sortDescBy_perm (fun r : MediaRow => r.created_at) _).length_eq]

/-- C5 witness: the most recent of the eleven alice rows is listed, with
the right creator, and it is one of the stored rows. -/
theorem linkio_C5_list_by_owner_witness :
    (⟨"aaaab0", "https://example.com/10", "alice", 10, 0⟩ : LinkRow).creator = "alice" ∧
    (⟨"aaaab0", "https://example.com/10", "alice", 10, 0⟩ : LinkRow) ∈ db11.links :=
  linkio_C5_list_by_owner.1 db11 "alice"
    ⟨"aaaab0", "https://example.com/10", "alice", 10, 0⟩ (by decide)

/-! ## Creation validation (C6, C7) -/

theorem createShortLink_revert_iff (env : Env) (fuel : Nat) (s : CState)
    (url : String) :
    callReverted (createShortLink env fuel s url) = true ↔
      url.utf8ByteSize = 0 ∨ 2048 < url.utf8ByteSize := by
  unfold createShortLink
  by_cases h1 : url.utf8ByteSize = 0
  · rw [if_pos h1]
    simp [callReverted, CallResult.isRevert, h1]
  · rw [if_neg h1]
    by_cases h2 : 2048 < url.utf8ByteSize
    · rw [if_pos h2]
      simp [callReverted, CallResult.isRevert, h2]
    · rw [if_neg h2]
      cases hg : genLoopLink env fuel s with
      | none => simp [callReverted, h1, h2]
      | some cs =>
        obtain ⟨code, s₁⟩ := cs
        simp [callReverted, CallResult.isRevert, h1, h2]

theorem postLink_bad_iff (db : Db) (draws : List (Nat → Nat))
    (url creator : String) (now : Nat) :
    createBad (postLink db draws url creator now) = true ↔ url = "" := by
  unfold postLink
  by_cases hu : url = ""
  · rw [if_pos hu]
    simp [createBad, ApiResult.isBad, hu]
  · rw [if_neg hu]
    cases hp : pickFresh (linkCodeUsed db) draws with
    | none => simp [createBad, hu]
    | some code => simp [createBad, ApiResult.isBad, hu]

theorem createShortLink_ok_iff (env : Env) (fuel : Nat) (s : CState)
    (url : String) :
    callOk (createShortLink env fuel s url) = true ↔
      ¬ url.utf8ByteSize = 0 ∧ ¬ 2048 < url.utf8ByteSize ∧
        (genLoopLink env fuel s).isSome = true := by
  unfold createShortLink
  by_cases h1 : url.utf8ByteSize = 0
  · rw [if_pos h1]
    simp [callOk, h1]
  · rw [if_neg h1]
    by_cases h2 : 2048 < url.utf8ByteSize
    · rw [if_pos h2]
      simp [callOk, h1, h2]
    · rw [if_neg h2]
      cases hg : genLoopLink env fuel s with
      | none => simp [callOk, h1, h2]
      | some cs =>
        obtain ⟨code, s₁⟩ := cs
        simp [callOk, h1, h2]

theorem postLink_ok_iff (db : Db) (draws : List (Nat → Nat))
    (url creator : String) (now : Nat) :
    createOk (postLink db draws url creator now) = true ↔
      ¬ url = "" ∧ (pickFresh (linkCodeUsed db) draws).isSome = true := by
  unfold postLink
  by_cases hu : url = ""
  · rw [if_pos hu]
    simp [createOk, ApiResult.isOk, hu]
  · rw [if_neg hu]
    cases hp : pickFresh (linkCodeUsed db) draws with
    | none => simp [createOk, hu]
    | some code => simp [createOk, ApiResult.isOk, hu]

theorem createShortLink_clicks_zero {env : Env} {fuel : Nat} {s s' : CState}
    {url code : String}
    (h : createShortLink env fuel s url = some (s', .ok code)) :
    s'.links code = some ⟨url, env.sender, env.timestamp, 0⟩ := by
  unfold createShortLink at h
  by_cases h1 : url.utf8ByteSize = 0
  · rw [if_pos h1] at h
    cases h
  · rw [if_neg h1] at h
    by_cases h2 : 2048 < url.utf8ByteSize
    · rw [if_pos h2] at h
      cases h
    · rw [if_neg h2] at h
      cases hg : genLoopLink env fuel s with
      | none => rw [hg] at h; cases h
      | some cs =>
        obtain ⟨code₁, s₁⟩ := cs
        rw [hg] at h
        cases h
        show (if code = code then some _ else s₁.links code) = _
        rw [if_pos rfl]

theorem postLink_row_zero {db : Db} {draws : List (Nat → Nat)}
    {url creator : String} {now : Nat} {db' : Db} {row : LinkRow}
    (h : postLink db draws url creator now = some (db', .ok row)) :
    row.clicks = 0 ∧ row.original_url = url ∧ db'.links = db.links ++ [row] := by
  unfold postLink at h
  by_cases hu : url = ""
  · rw [if_pos hu] at h
    cases h
  · rw [if_neg hu] at h
    cases hp : pickFresh (linkCodeUsed db) draws with
    | none => rw [hp] at h; cases h
    | some code =>
      rw [hp] at h
      cases h
      exact ⟨rfl, rfl, rfl⟩

/-- C6 counterexample: the claim says createLink fails with InvalidInput
if and only if the URL is empty or longer than 2048 characters.  The
service's `POST /api/links` checks only that `originalUrl` is truthy: a
2049-character URL is accepted and stored. -/
theorem linkio_C6_counterexample :
    2048 < bigUrl.length ∧
    createOk (postLink emptyDb [drawA] bigUrl "anon" 0) = true := by
  constructor
  · rw [show bigUrl.length = 2049 from by
      rw [bigUrl, String.length]; exact List.length_replicate 2049 'a']
    decide
  · decide

/-- C6 amended: the contract's `createShortLink` reverts exactly when the
URL is empty or longer than 2048 bytes, and otherwise (given the retry
loop terminates) stores the new record with `clicks = 0`; the service's
`POST /api/links` rejects only an empty `originalUrl` — it has no length
check, so any non-empty URL of any length is accepted and inserted with
`clicks = 0`. -/
theorem linkio_C6_create_link_validation :
    (∀ (env : Env) (fuel : Nat) (s : CState) (url : String),
      callReverted (createShortLink env fuel s url) = true ↔
        url.utf8ByteSize = 0 ∨ 2048 < url.utf8ByteSize) ∧
    (∀ (db : Db) (draws : List (Nat → Nat)) (url creator : String) (now : Nat),
      createBad (postLink db draws url creator now) = true ↔ url = "") ∧
    (∀ (env : Env) (fuel : Nat) (s : CState) (url : String),
      callOk (createShortLink env fuel s url) = true ↔
        ¬ url.utf8ByteSize = 0 ∧ ¬ 2048 < url.utf8ByteSize ∧
          (genLoopLink env fuel s).isSome = true) ∧
    (∀ (db : Db) (draws : List (Nat → Nat)) (url creator : String) (now : Nat),
      createOk (postLink db draws url creator now) = true ↔
        ¬ url = "" ∧ (pickFresh (linkCodeUsed db) draws).isSome = true) ∧
    (∀ (env : Env) (fuel : Nat) (s s' : CState) (url code : String),
      createShortLink env fuel s url = some (s', .ok code) →
      s'.links code = some ⟨url, env.sender, env.timestamp, 0⟩) ∧
    (∀ (db : Db) (draws : List (Nat → Nat)) (url creator : String) (now : Nat)
        (db' : Db) (row : LinkRow),
      postLink db draws url creator now = some (db', .ok row) →
      row.clicks = 0 ∧ row.original_url = url ∧ db'.links = db.links ++ [row]) :=
  ⟨createShortLink_revert_iff, postLink_bad_iff, createShortLink_ok_iff,
    postLink_ok_iff, fun _ _ _ _ _ _ h => createShortLink_clicks_zero h,
    fun _ _ _ _ _ _ _ h => postLink_row_zero h⟩

/-- C6 witness: one concrete successful service creation has clicks 0,
keeps the URL, and appends the row. -/
theorem linkio_C6_create_link_validation_witness :
    (⟨"aaaaaa", "https://example.com/test", "alice", 0, 0⟩ : LinkRow).clicks = 0 ∧
    (⟨"aaaaaa", "https://example.com/test", "alice", 0, 0⟩ : LinkRow).original_url =
      "https://example.com/test" ∧
    (⟨[⟨"aaaaaa", "https://example.com/test", "alice", 0, 0⟩], []⟩ : Db).links =
      emptyDb.links ++ [⟨"aaaaaa", "https://example.com/test", "alice", 0, 0⟩] :=
  linkio_C6_create_link_validation.2.2.2.2.2 emptyDb [drawA]
    "https://example.com/test" "alice" 0
    ⟨[⟨"aaaaaa", "https://example.com/test", "alice", 0, 0⟩], []⟩
    ⟨"aaaaaa", "https://example.com/test", "alice", 0, 0⟩ (by decide)

theorem uploadMedia_revert_iff (env : Env) (fuel : Nat) (s : CState)
    (ipfsHash fileName fileType : String) (fileSize : Nat) :
    callReverted (uploadMedia env fuel s ipfsHash fileName fileType fileSize) = true ↔
      ipfsHash.utf8ByteSize = 0 ∨ fileName.utf8ByteSize = 0 := by
  unfold uploadMedia
  by_cases h1 : ipfsHash.utf8ByteSize = 0
  · rw [if_pos h1]
    simp [callReverted, CallResult.isRevert, h1]
  · rw [if_neg h1]
    by_cases h2 : fileName.utf8ByteSize = 0
    · rw [if_pos h2]
      simp [callReverted, CallResult.isRevert, h1, h2]
    · rw [if_neg h2]
      cases hg : genLoopMedia env fuel s with
      | none => simp [callReverted, h1, h2]
      | some cs =>
        obtain ⟨code, s₁⟩ := cs
        simp [callReverted, CallResult.isRevert, h1, h2]

theorem postMedia_bad_iff (db : Db) (draws : List (Nat → Nat))
    (ipfsHash fileName fileType : String) (fileSize : Nat) (creator : String)
    (now : Nat) :
    createBad (postMedia db draws ipfsHash fileName fileType fileSize creator now) = true ↔
      ipfsHash = "" ∨ fileName = "" ∨ fileType = "" ∨ fileSize = 0 := by
  unfold postMedia
  by_cases hu : ipfsHash = "" ∨ fileName = "" ∨ fileType = "" ∨ fileSize = 0
  · rw [if_pos hu]
    simp [createBad, ApiResult.isBad, hu]
  · rw [if_neg hu]
    cases hp : pickFresh (mediaCodeUsed db) draws with
    | none => simp [createBad, hu]
    | some code => simp [createBad, ApiResult.isBad, hu]

theorem uploadMedia_stores {env : Env} {fuel : Nat} {s s' : CState}
    {ipfsHash fileName fileType : String} {fileSize : Nat} {code : String}
    (h : uploadMedia env fuel s ipfsHash fileName fileType fileSize = some (s', .ok code)) :
    s'.media code =
      some ⟨ipfsHash, fileName, fileType, fileSize, env.sender, env.timestamp, 0⟩ := by
  unfold uploadMedia at h
  by_cases h1 : ipfsHash.utf8ByteSize = 0
  · rw [if_pos h1] at h
    cases h
  · rw [if_neg h1] at h
    by_cases h2 : fileName.utf8ByteSize = 0
    · rw [if_pos h2] at h
      cases h
    · rw [if_neg h2] at h
      cases hg : genLoopMedia env fuel s with
      | none => rw [hg] at h; cases h
      | some cs =>
        obtain ⟨code₁, s₁⟩ := cs
        rw [hg] at h
        cases h
        show (if code = code then some _ else s₁.media code) = _
        rw [if_pos rfl]

theorem postMedia_row_fields {db : Db} {draws : List (Nat → Nat)}
    {ipfsHash fileName fileType : String} {fileSize : Nat} {creator : String}
    {now : Nat} {db' : Db} {row : MediaRow}
    (h : postMedia db draws ipfsHash fileName fileType fileSize creator now =
      some (db', .ok row)) :
    row.ipfs_hash = ipfsHash ∧ row.file_name = fileName ∧
    row.file_type = fileType ∧ row.file_size = fileSize ∧ row.views = 0 := by
  unfold postMedia at h
  by_cases hu : ipfsHash = "" ∨ fileName = "" ∨ fileType = "" ∨ fileSize = 0
  · rw [if_pos hu] at h
    cases h
  · rw [if_neg hu] at h
    cases hp : pickFresh (mediaCodeUsed db) draws with
    | none => rw [hp] at h; cases h
    | some code =>
      rw [hp] at h
      cases h
      exact ⟨rfl, rfl, rfl, rfl, rfl⟩

/-- C7 counterexample: the claim says createMedia fails exactly when
contentRef or fileName is empty and that fileType/fileSize are accepted
without any validation.  The service's `POST /api/media` falsy-check also
rejects an empty `fileType` and a zero `fileSize`: with a non-empty hash
and file name but `fileType = ""` and `fileSize = 0` it answers 400,
while the contract's `uploadMedia` accepts the very same arguments. -/
theorem linkio_C7_counterexample :
    createBad (postMedia emptyDb [drawA] "QmTest123" "a.png" "" 0 "alice" 0) = true ∧
    callOk (uploadMedia env0 1 initialCState "QmTest123" "a.png" "" 0) = true ∧
    ¬ ("QmTest123" = "" ∨ "a.png" = "") := by
  decide

/-- C7 amended: the contract's `uploadMedia` reverts exactly when
`ipfsHash` or `fileName` is empty and stores `fileType`/`fileSize`
unvalidated and unchanged (any values, including the empty string and 0);
the service's `POST /api/media` additionally rejects an empty `fileType`
and a zero `fileSize` (JS falsy check), and otherwise stores all four
fields unchanged with `views = 0`. -/
theorem linkio_C7_create_media_validation :
    (∀ (env : Env) (fuel : Nat) (s : CState)
        (ipfsHash fileName fileType : String) (fileSize : Nat),
      callReverted (uploadMedia env fuel s ipfsHash fileName fileType fileSize) = true ↔
        ipfsHash.utf8ByteSize = 0 ∨ fileName.utf8ByteSize = 0) ∧
    (∀ (db : Db) (draws : List (Nat → Nat))
        (ipfsHash fileName fileType : String) (fileSize : Nat) (creator : String)
        (now : Nat),
      createBad (postMedia db draws ipfsHash fileName fileType fileSize creator now) = true ↔
        ipfsHash = "" ∨ fileName = "" ∨ fileType = "" ∨ fileSize = 0) ∧
    (∀ (env : Env) (fuel : Nat) (s s' : CState)
        (ipfsHash fileName fileType : String) (fileSize : Nat) (code : String),
      uploadMedia env fuel s ipfsHash fileName fileType fileSize = some (s', .ok code) →
      s'.media code =
        some ⟨ipfsHash, fileName, fileType, fileSize, env.sender, env.timestamp, 0⟩) ∧
    (∀ (db : Db) (draws : List (Nat → Nat))
        (ipfsHash fileName fileType : String) (fileSize : Nat) (creator : String)
        (now : Nat) (db' : Db) (row : MediaRow),
      postMedia db draws ipfsHash fileName fileType fileSize creator now =
        some (db', .ok row) →
      row.ipfs_hash = ipfsHash ∧ row.file_name = fileName ∧
      row.file_type = fileType ∧ row.file_size = fileSize ∧ row.views = 0) :=
  ⟨uploadMedia_revert_iff, postMedia_bad_iff,
    fun _ _ _ _ _ _ _ _ _ h => uploadMedia_stores h,
    fun _ _ _ _ _ _ _ _ _ _ h => postMedia_row_fields h⟩

/-- C7 witness: one concrete successful service media creation keeps all
four descriptive fields and starts at views 0. -/
theorem linkio_C7_create_media_validation_witness :
    (⟨"aaaaaa", "QmTest123", "a.png", "image/png", 1024000, "alice", 0, 0⟩ :
      MediaRow).ipfs_hash = "QmTest123" ∧
    (⟨"aaaaaa", "QmTest123", "a.png", "image/png", 1024000, "alice", 0, 0⟩ :
      MediaRow).file_name = "a.png" ∧
    (⟨"aaaaaa", "QmTest123", "a.png", "image/png", 1024000, "alice", 0, 0⟩ :
      MediaRow).file_type = "image/png" ∧
    (⟨"aaaaaa", "QmTest123", "a.png", "image/png", 1024000, "alice", 0, 0⟩ :
      MediaRow).file_size = 1024000 ∧
    (⟨"aaaaaa", "QmTest123", "a.png", "image/png", 1024000, "alice", 0, 0⟩ :
      MediaRow).views = 0 :=
  linkio_C7_create_media_validation.2.2.2 emptyDb [drawA] "QmTest123" "a.png"
    "image/png" 1024000 "alice" 0
    ⟨[], [⟨"aaaaaa", "QmTest123", "a.png", "image/png", 1024000, "alice", 0, 0⟩]⟩
    ⟨"aaaaaa", "QmTest123", "a.png", "image/png", 1024000, "alice", 0, 0⟩ (by decide)

end Linkio
